import Mathlib

/-!
Verification of the trace-rewriting core of scripts/copy_public_trace.py
(class TraceTransformer).

The Python code is shallowly embedded:
* run records (JSON dicts) become the structure Run; the transformed dicts
  become the structure TRun;
* the mutable instance attributes of TraceTransformer (id_mapping,
  dotted_order_mapping, new_trace_id, target_project, preserve_timestamps)
  become the structure TState, threaded explicitly;
* the shared mutable "extra" dict objects are modelled by an explicit heap
  (a list of ExtraVal indexed by address), so that Python aliasing
  ("transformed's extra is the same object as the input run's extra") is
  statable as address equality;
* datetime.utcnow() and uuid.uuid4() are injected capabilities: a DateTime
  value "now" and a generator function gen : Nat -> String giving the i-th
  freshly generated identifier, following the design note of the spec
  that the random unique-ID source be modelled as an injected generator;
* exceptions (KeyError on a missing id, ValueError from
  datetime.fromisoformat) become Except String results: an error return of
  transform_runs models the Python exception propagating out of the call,
  so no output list is produced.
-/

namespace CopyPublicTrace

/-! ### Python-side primitive models: strings, datetimes -/

/-- Model of CPython string comparison (lexicographic on code points),
returning true when the first string is strictly smaller. -/
def charListLt : List Char → List Char → Bool
  | [], [] => false
  | [], _ :: _ => true
  | _ :: _, [] => false
  | a :: as, b :: bs =>
    if a.toNat < b.toNat then true
    else if b.toNat < a.toNat then false
    else charListLt as bs

/-- Strict string comparison used by Python sorting and comparisons. -/
def strLt (s t : String) : Bool := charListLt s.data t.data

/-- Non-strict string comparison: s <= t iff not (t < s). -/
def strLe (s t : String) : Bool := !(strLt t s)

/-- Naive datetime value: the fields of a Python datetime that the script
reads (tzinfo is parsed for validation but then discarded, because
strftime and the script never use it). -/
structure DateTime where
  year : Nat
  month : Nat
  day : Nat
  hour : Nat
  minute : Nat
  second : Nat
  microsecond : Nat
deriving DecidableEq, Repr

/-- Decimal digit character for d in 0..9. -/
def digitChar (d : Nat) : Char := Char.ofNat (48 + d % 10)

/-- Zero-padded 2-digit decimal rendering (agrees with strftime %m, %d,
%H, %M, %S on their value ranges). -/
def pad2 (n : Nat) : String := String.mk [digitChar (n / 10), digitChar n]

/-- Zero-padded 4-digit decimal rendering (agrees with strftime %Y for
years up to 9999, which is the full range datetime supports). -/
def pad4 (n : Nat) : String :=
  String.mk [digitChar (n / 1000), digitChar (n / 100), digitChar (n / 10), digitChar n]

/-- Zero-padded 6-digit decimal rendering (agrees with strftime %f). -/
def pad6 (n : Nat) : String :=
  String.mk [digitChar (n / 100000), digitChar (n / 10000), digitChar (n / 1000),
    digitChar (n / 100), digitChar (n / 10), digitChar n]

/-- Model of start_time_dt.strftime("%Y%m%dT%H%M%S%f") from line 211 of
copy_public_trace.py: a fixed-width, separator-free timestamp with
microsecond precision. Always 21 characters. -/
def strftimeCompact (d : DateTime) : String :=
  pad4 d.year ++ pad2 d.month ++ pad2 d.day ++ "T" ++
    pad2 d.hour ++ pad2 d.minute ++ pad2 d.second ++ pad6 d.microsecond

/-- Model of datetime.isoformat() on a naive datetime: the microsecond
part is printed only when nonzero, exactly as in CPython. -/
def isoformatDT (d : DateTime) : String :=
  pad4 d.year ++ "-" ++ pad2 d.month ++ "-" ++ pad2 d.day ++ "T" ++
    pad2 d.hour ++ ":" ++ pad2 d.minute ++ ":" ++ pad2 d.second ++
    (if d.microsecond = 0 then "" else "." ++ pad6 d.microsecond)

/-- Model of s.replace("Z", "+00:00") from line 206: every occurrence of
the character Z is replaced by the offset string. -/
def zToOffset (s : String) : String :=
  String.mk (List.flatten (s.data.map (fun c => if c = 'Z' then "+00:00".data else [c])))

/-- Character class test for ASCII decimal digits. -/
def isDigitChar (c : Char) : Bool := 48 ≤ c.toNat && c.toNat ≤ 57

/-- Numeric value of an ASCII digit. -/
def digVal (c : Char) : Nat := c.toNat - 48

/-- Reads exactly k decimal digits from the front of the character list,
returning their value and the rest. -/
def readDigits : Nat → List Char → Option (Nat × List Char)
  | 0, cs => some (0, cs)
  | _ + 1, [] => none
  | k + 1, c :: cs =>
    if isDigitChar c then
      match readDigits k cs with
      | some (v, rest) => some (digVal c * 10 ^ k + v, rest)
      | none => none
    else none

/-- Gregorian leap-year test, as in the datetime module. -/
def isLeap (y : Nat) : Bool := (y % 4 = 0 && !(y % 100 = 0)) || y % 400 = 0

/-- Number of days in a month, as validated by datetime. -/
def daysInMonth (y m : Nat) : Nat :=
  if m = 2 then (if isLeap y then 29 else 28)
  else if m = 4 || m = 6 || m = 9 || m = 11 then 30
  else 31

/-- Reads the optional fractional-seconds part: either absent, or a dot
followed by exactly 3 or exactly 6 digits (the two widths
datetime.fromisoformat accepts); 3 digits denote milliseconds. -/
def readFraction : List Char → Option (Nat × List Char)
  | [] => some (0, [])
  | c :: cs =>
    if c = '.' then
      match readDigits 6 cs with
      | some (v, rest) => some (v, rest)
      | none =>
        match readDigits 3 cs with
        | some (v, rest) =>
          -- a 3-digit fraction must not be followed by a fourth digit
          match rest with
          | r :: _ => if isDigitChar r then none else some (v * 1000, rest)
          | [] => some (v * 1000, [])
        | none => none
    else some (0, c :: cs)

/-- Reads the time-of-day part HH[:MM[:SS[.fff[fff]]]] of an isoformat
string, returning hour, minute, second, microsecond and the rest. -/
def readTime (cs : List Char) : Option (Nat × Nat × Nat × Nat × List Char) :=
  match readDigits 2 cs with
  | none => none
  | some (hh, rest) =>
    match rest with
    | ':' :: rest2 =>
      match readDigits 2 rest2 with
      | none => none
      | some (mm, rest3) =>
        match rest3 with
        | ':' :: rest4 =>
          match readDigits 2 rest4 with
          | none => none
          | some (ss, rest5) =>
            match readFraction rest5 with
            | none => none
            | some (us, rest6) => some (hh, mm, ss, us, rest6)
        | _ => some (hh, mm, 0, 0, rest3)
    | _ => some (hh, 0, 0, 0, rest)

/-- Reads a trailing UTC-offset suffix: empty, or a sign followed by
HH:MM or HH:MM:SS. The parsed offset is validated and then discarded,
because the script only ever formats the naive fields of the parsed
datetime (strftime does not consult tzinfo). -/
def readOffset : List Char → Bool
  | [] => true
  | c :: cs =>
    if c = '+' || c = '-' then
      match readDigits 2 cs with
      | none => false
      | some (oh, r1) =>
        if oh ≥ 24 then false
        else
          match r1 with
          | ':' :: r2 =>
            match readDigits 2 r2 with
            | none => false
            | some (om, r3) =>
              if om ≥ 60 then false
              else
                match r3 with
                | [] => true
                | ':' :: r4 =>
                  match readDigits 2 r4 with
                  | some (os, []) => os < 60
                  | _ => false
                | _ => false
          | _ => false
    else false

/-- Model of datetime.fromisoformat, restricted to the grammar the script
can feed it after the Z-to-offset replacement:
YYYY-MM-DD[<sep>HH[:MM[:SS[.fff[fff]]]][(+|-)HH:MM[:SS]]] with a
single arbitrary separator character between date and time, and range
validation of every field as performed by the datetime constructor. -/
def fromisoModel (s : String) : Option DateTime :=
  match readDigits 4 s.data with
  | none => none
  | some (yy, r1) =>
    match r1 with
    | '-' :: r2 =>
      match readDigits 2 r2 with
      | none => none
      | some (mo, r3) =>
        match r3 with
        | '-' :: r4 =>
          match readDigits 2 r4 with
          | none => none
          | some (dd, r5) =>
            let validDate := 1 ≤ mo && mo ≤ 12 && 1 ≤ dd && dd ≤ daysInMonth yy mo && 1 ≤ yy
            match r5 with
            | [] => if validDate then some ⟨yy, mo, dd, 0, 0, 0, 0⟩ else none
            | _ :: r6 =>
              -- one separator character (any), then the time part
              match readTime r6 with
              | none => none
              | some (hh, mm, ss, us, r7) =>
                if validDate && hh ≤ 23 && mm ≤ 59 && ss ≤ 59 && readOffset r7 then
                  some ⟨yy, mo, dd, hh, mm, ss, us⟩
                else none
        | _ => none
    | _ => none

/-! ### Data model: extra dicts, heap, run records -/

/-- Opaque JSON-ish values stored in the metadata dict; only the two
provenance values the transformer writes need distinguishing. -/
inductive JVal where
  | vbool : Bool → JVal
  | vstr : String → JVal
deriving DecidableEq, Repr

/-- Python dict with string keys, as an insertion-ordered association
list; used for extra["metadata"]. -/
abbrev Dict := List (String × JVal)

/-- Model of Python dict assignment d[k] = v: an existing binding is
updated in place, otherwise the new binding is appended at the end. -/
def dictSet : Dict → String → JVal → Dict
  | [], k, v => [(k, v)]
  | (k', v') :: d, k, v =>
    if k' = k then (k, v) :: d else (k', v') :: dictSet d k v

/-- Model of Python dict lookup d.get(k). -/
def dictGet (d : Dict) (k : String) : Option JVal := List.lookup k d

/-- One Python "extra" dict object: its optional "metadata" sub-dict,
plus its remaining keys, which the transformer never touches. -/
structure ExtraVal where
  metadata : Option Dict
  rest : Dict
deriving DecidableEq, Repr

/-- Heap of extra objects; a Run holds an address into this list. This
makes Python object identity (aliasing) statable. -/
abbrev Heap := List ExtraVal

/-- Reads the heap at an address. -/
def heapGet (h : Heap) (a : Nat) : Option ExtraVal := h.get? a

/-- Updates the heap at an address (out-of-range addresses never occur
for references obtained from live Python objects). -/
def heapModify : Heap → Nat → (ExtraVal → ExtraVal) → Heap
  | [], _, _ => []
  | e :: h, 0, f => f e :: h
  | e :: h, a + 1, f => e :: heapModify h a f

/-- Input run record, with the fields of the fetched JSON dict that the
transformer reads. parent_run_id None and dotted_order/start_time/
end_time absence are modelled with Option. The extra field holds the
address of the extra dict object, or none when the key is absent or
null (both lead the code to allocate a fresh empty dict). Payload
fields that no verified property mentions (inputs, outputs, events,
tags, serialized, error, token counts) are omitted from the model;
the code copies them through without reading them. -/
structure Run where
  id : String
  parent_run_id : Option String
  dotted_order : Option String
  start_time : Option String
  end_time : Option String
  name : Option String
  run_type : Option String
  extra : Option Nat
deriving DecidableEq, Repr

/-- Transformed run record: the dict built by _transform_single_run. -/
structure TRun where
  id : String
  trace_id : Option String
  parent_run_id : Option String
  name : Option String
  run_type : Option String
  start_time : Option String
  end_time : Option String
  extra : Nat
  session_name : String
  dotted_order : String
deriving DecidableEq, Repr

/-- Placeholder run used only as the default of List.getD in statements;
statements always guard the index. -/
def dummyRun : Run := ⟨"", none, none, none, none, none, none, none⟩

/-- Placeholder transformed run for List.getD in statements. -/
def dummyTRun : TRun := ⟨"", none, none, none, none, none, none, 0, "", ""⟩

/-! ### TraceTransformer state and the two passes -/

/-- Mutable state of a TraceTransformer instance: the constructor
arguments plus the three attributes assigned in __init__ and mutated
by the passes. -/
structure TState where
  target_project : String
  preserve_timestamps : Bool
  id_mapping : List (String × String)
  dotted_order_mapping : List (String × String)
  new_trace_id : Option String
deriving DecidableEq, Repr

/-- Model of TraceTransformer.__init__ (lines 116-121): empty maps and an
unset trace id. -/
def TState.init (target_project : String) (preserve_timestamps : Bool) : TState :=
  ⟨target_project, preserve_timestamps, [], [], none⟩

/-- Model of Python dict assignment for the two string-to-string maps:
the new binding shadows any earlier binding for the same key under
List.lookup, which matches dict get/set observations. -/
def mapSet (m : List (String × String)) (k v : String) : List (String × String) :=
  (k, v) :: m

/-- Truthiness of an optional string, as used by "if old_parent_id:" and
"if parent_dotted_order:" in the code (None and the empty string are
falsy). -/
def truthy : Option String → Bool
  | none => false
  | some s => !(s = "")

/-- One step of the first pass (lines 134-140): generate the fresh id for
this run (the i-th generated id is gen i), record old-to-new in
id_mapping, and let a run whose parent_run_id is None set
new_trace_id. -/
def firstPassStep (gen : Nat → String) (i : Nat) (st : TState) (run : Run) : TState :=
  { st with
    id_mapping := mapSet st.id_mapping run.id (gen i)
    new_trace_id := if run.parent_run_id = none then some (gen i) else st.new_trace_id }

/-- First pass of transform_runs (lines 132-140), walking the sorted runs. -/
def firstPass (gen : Nat → String) : Nat → TState → List Run → TState
  | _, st, [] => st
  | i, st, run :: rest => firstPass gen (i + 1) (firstPassStep gen i st run) rest

/-- Lines 156-159: the new parent id is the id_mapping image of the old
parent when the old parent id is truthy, and None otherwise; a missing
mapping silently yields None (dict.get). -/
def newParentId (st : TState) (run : Run) : Option String :=
  match run.parent_run_id with
  | none => none
  | some p => if p = "" then none else List.lookup p st.id_mapping

/-- Line 172 and lines 181-182: the transformed record's extra is the very
extra object of the input run when present and non-null; otherwise a
fresh empty dict object is allocated. Returns the heap and the address. -/
def allocExtra (heap : Heap) : Option Nat → Heap × Nat
  | some a => (heap, a)
  | none => (heap ++ [⟨none, []⟩], heap.length)

/-- Lines 183-184: create extra["metadata"] as an empty dict if absent. -/
def ensureMetadata (e : ExtraVal) : ExtraVal :=
  if e.metadata = none then { e with metadata := some [] } else e

/-- Lines 186-187: set one provenance key inside extra["metadata"]. -/
def setMetaKey (k : String) (v : JVal) (e : ExtraVal) : ExtraVal :=
  { e with metadata := some (dictSet (e.metadata.getD []) k v) }

/-- Lines 204-208: obtain the datetime used for the dotted-order
timestamp. A string start_time goes through the Z replacement and
fromisoformat and any parse failure raises (aborting the whole
transformation); an absent start_time falls back to utcnow (the
injected now). -/
def parseStartTime (now : DateTime) : Option String → Except String DateTime
  | some s =>
    match fromisoModel (zToOffset s) with
    | some dt => .ok dt
    | none => .error ("Invalid isoformat string: " ++ s)
  | none => .ok now

/-- Separator-free rendering of a freshly generated identifier (line 212,
new_id.replace("-", "")). -/
def stripHyphens (s : String) : String := String.mk (s.data.filter (fun c => !(c = '-')))

/-- Lines 210-226: the dotted_order of the transformed record. The
current part is the compact timestamp, a literal Z, then the new id
with hyphens removed; a truthy new parent id selects the child branch,
which prepends the parent's recorded new dotted order when the
dotted_order_mapping lookup is truthy and otherwise falls back to the
current part alone. The Python str() of the old parent id renders
None as the string "None". -/
def dottedFor (st : TState) (run : Run) (new_id : String) (dt : DateTime) : String :=
  let formatted_timestamp := strftimeCompact dt ++ "Z"
  let current_part := formatted_timestamp ++ stripHyphens new_id
  if truthy (newParentId st run) then
    match List.lookup ((run.parent_run_id).getD "None") st.dotted_order_mapping with
    | some pdo => if pdo = "" then current_part else pdo ++ "." ++ current_part
    | none => current_part
  else current_part

/-- Combined effect on the heap of lines 172 and 181-187 for one run:
share or allocate the extra object, create its metadata dict if
absent, then write the two provenance keys. -/
def extraHeapAfter (heap : Heap) (ex : Option Nat) (old_id : String) : Heap :=
  let (heap1, extraAddr) := allocExtra heap ex
  let heap2 := heapModify heap1 extraAddr ensureMetadata
  let heap3 := heapModify heap2 extraAddr (setMetaKey "copied_from_shared_trace" (JVal.vbool true))
  heapModify heap3 extraAddr (setMetaKey "original_run_id" (JVal.vstr old_id))

/-- Transformed dict built by lines 162-178 and 199-226 for one run, given
the already-looked-up new id and the parsed start datetime. -/
def mkTransformed (now : DateTime) (st : TState) (heap : Heap) (run : Run)
    (new_id : String) (dt : DateTime) : TRun :=
  { id := new_id
    trace_id := st.new_trace_id
    parent_run_id := newParentId st run
    name := run.name
    run_type := run.run_type
    start_time := if st.preserve_timestamps then run.start_time else some (isoformatDT now)
    end_time := if st.preserve_timestamps then run.end_time else none
    extra := (allocExtra heap run.extra).2
    session_name := st.target_project
    dotted_order := dottedFor st run new_id dt }

/-- Model of TraceTransformer._transform_single_run (lines 150-231) on one
run: fails with a KeyError model when the run id is not in id_mapping
(impossible after the first pass) or with the fromisoformat error from
line 206. On success, returns the state with the updated
dotted_order_mapping (line 229), the heap after the extra mutations,
and the transformed record. In the source the extra mutations happen
textually before the timestamp parse; the embedding checks the two
fallible steps first and then applies the pure construction, which
gives the same result on success, and on failure no verified property
observes the heap of the aborted call. -/
def transformSingleRun (now : DateTime) (st : TState) (heap : Heap) (run : Run) :
    Except String (TState × Heap × TRun) :=
  match List.lookup run.id st.id_mapping with
  | none => .error "KeyError"
  | some new_id =>
    match parseStartTime now run.start_time with
    | .error e => .error e
    | .ok start_time_dt =>
      .ok ({ st with dotted_order_mapping :=
               mapSet st.dotted_order_mapping run.id (dottedFor st run new_id start_time_dt) },
        extraHeapAfter heap run.extra run.id,
        mkTransformed now st heap run new_id start_time_dt)

/-- Second pass of transform_runs (lines 142-146): transform each sorted
run in order, collecting the outputs; the first exception aborts the
whole call. -/
def secondPass (now : DateTime) : TState → Heap → List Run → Except String (TState × Heap × List TRun)
  | st, heap, [] => .ok (st, heap, [])
  | st, heap, run :: rest =>
    match transformSingleRun now st heap run with
    | .error e => .error e
    | .ok (st', heap', t) =>
      match secondPass now st' heap' rest with
      | .error e => .error e
      | .ok (st'', heap'', ts) => .ok (st'', heap'', t :: ts)

/-- Stable insertion into a sorted list: the new element goes after every
element whose key is less than or equal, which is how a stable sort
orders equal keys. -/
def insertSorted (le : α → α → Bool) (x : α) : List α → List α
  | [] => [x]
  | y :: ys => if le y x then y :: insertSorted le x ys else x :: y :: ys

/-- Model of Python sorted(xs, key=...): a stable sort. Python specifies
sorted to be stable, and all stable sorts of the same list under the
same total preorder coincide, so this insertion sort is extensionally
the Python function. -/
def pySorted (le : α → α → Bool) (xs : List α) : List α :=
  xs.foldl (fun acc x => insertSorted le x acc) []

/-- Sort key of line 130: r.get("dotted_order", "") compared as strings. -/
def runLe (a b : Run) : Bool := strLe (a.dotted_order.getD "") (b.dotted_order.getD "")

/-- Comparison of transformed records by their new dotted_order, used to
state the order-preservation law. -/
def trunLe (a b : TRun) : Bool := strLe a.dotted_order b.dotted_order

/-- Model of TraceTransformer.transform_runs (lines 123-148): sort by
dotted_order, run the id-generation pass, then the rewrite pass. -/
def transform_runs (now : DateTime) (gen : Nat → String) (st : TState) (heap : Heap)
    (runs : List Run) : Except String (TState × Heap × List TRun) :=
  let sorted_runs := pySorted runLe runs
  let st1 := firstPass gen 0 st sorted_runs
  secondPass now st1 heap sorted_runs

/-- Projection of a transformation result to its output list (empty on
error); used to state claims without binders. -/
def outsOf : Except String (TState × Heap × List TRun) → List TRun
  | .ok (_, _, os) => os
  | .error _ => []

/-- Projection of a transformation result to its final heap (empty on
error). -/
def heapOf : Except String (TState × Heap × List TRun) → Heap
  | .ok (_, h, _) => h
  | .error _ => []

/-- Tests whether a transformation aborted with an error. -/
def resultIsError : Except String (TState × Heap × List TRun) → Bool
  | .error _ => true
  | .ok _ => false

/-- Projection of a transformation result to its final transformer state
(an inert dummy on error); used to state claims without binders. -/
def stateOf : Except String (TState × Heap × List TRun) → TState
  | .ok (st, _, _) => st
  | .error _ => TState.init "" true

/-! ### Verification-side derived notions

The following definitions do not model new source code; they name, in
terms of the embedded source functions above, the quantities the spec
claims talk about (the index of the record resolving a parent
reference, ancestor chains, the expected dotted-order parts). -/

/-- Index of the earliest record before position j in the sorted list
whose id equals the parent reference of the record at j; none for a
root. This is the parent position the topological processing order
guarantees has been handled already. -/
def pidxOf (rs : List Run) (j : Nat) : Option Nat :=
  match (rs.getD j dummyRun).parent_run_id with
  | none => none
  | some p => (List.range j).find? (fun i => (rs.getD i dummyRun).id == p)

/-- Fuel-bounded ancestor chain of positions: the chain of a root is just
its own position, and the chain of a child is its parent's chain
followed by its own position. The fuel is enough whenever parent
positions strictly decrease. -/
def chainF (pidx : Nat → Option Nat) : Nat → Nat → List Nat
  | 0, j => [j]
  | fuel + 1, j =>
    match pidx j with
    | none => [j]
    | some i => chainF pidx fuel i ++ [j]

/-- Ancestor chain of the record at position j (fuel instantiated). -/
def chainIdx (pidx : Nat → Option Nat) (j : Nat) : List Nat := chainF pidx j j

/-- Dotted join of a list of parts, as the remote system's dotted_order
format concatenates them. -/
def dotJoin : List String → String
  | [] => ""
  | [p] => p
  | p :: ps => p ++ "." ++ dotJoin ps

/-- Compact timestamp the transformer derives for the record at position
i of the sorted list: from the parsed original start_time, or from
the current instant when start_time is absent. Empty only on a parse
failure, where the transformation aborts instead. -/
def tsOf (now : DateTime) (rs : List Run) (i : Nat) : String :=
  match (rs.getD i dummyRun).start_time with
  | none => strftimeCompact now
  | some s =>
    match fromisoModel (zToOffset s) with
    | some dt => strftimeCompact dt
    | none => ""

/-- Current part of the new dotted_order for the record at position i:
compact timestamp, the literal Z, then the i-th generated id without
hyphens. -/
def partOf (now : DateTime) (gen : Nat → String) (rs : List Run) (i : Nat) : String :=
  tsOf now rs i ++ "Z" ++ stripHyphens (gen i)

/-- Expected new dotted_order of the record at position j: the dotted
join of the current parts along its ancestor chain. -/
def expDotted (now : DateTime) (gen : Nat → String) (rs : List Run) (j : Nat) : String :=
  dotJoin ((chainIdx (pidxOf rs) j).map (partOf now gen rs))

/-- Boolean check that the extra object at address a carries the injected
provenance: a metadata dict in which copied_from_shared_trace is true
and original_run_id is set. -/
def provenancedB (h : Heap) (a : Nat) : Bool :=
  match heapGet h a with
  | none => false
  | some e =>
    match e.metadata with
    | none => false
    | some m =>
      dictGet m "copied_from_shared_trace" == some (JVal.vbool true) &&
        (dictGet m "original_run_id").isSome

/-- Structural validity of the sorted input list, as the spec's input
invariants put it: record ids are distinct and non-empty, and every
parent reference resolves to a record at an earlier position (the
topological-order property of inputs sorted by dotted_order). -/
structure TopoList (rs : List Run) : Prop where
  nodup : (rs.map Run.id).Nodup
  ids_ne : ∀ r ∈ rs, r.id ≠ ""
  resolves : ∀ j, (h : j < rs.length) → ∀ p, (rs.getD j dummyRun).parent_run_id = some p →
    ∃ i, i < j ∧ (rs.getD i dummyRun).id = p

/-- Specification of the transformed record produced for position j of
the sorted input (every field except the heap address of extra, which
depends on the heap): the new id is the j-th generated one, the
trace id and project label are stamped, the parent reference is the
generated id of the resolving position, the dotted order follows the
ancestor chain, and timestamps obey preserve_timestamps. -/
def OutSpec (now : DateTime) (gen : Nat → String) (rs : List Run) (tid : Option String)
    (proj : String) (flag : Bool) (j : Nat) (o : TRun) : Prop :=
  o.id = gen j ∧
  o.trace_id = tid ∧
  o.parent_run_id = (pidxOf rs j).map gen ∧
  o.dotted_order = expDotted now gen rs j ∧
  o.name = (rs.getD j dummyRun).name ∧
  o.run_type = (rs.getD j dummyRun).run_type ∧
  o.start_time = (if flag then (rs.getD j dummyRun).start_time else some (isoformatDT now)) ∧
  o.end_time = (if flag then (rs.getD j dummyRun).end_time else none) ∧
  o.session_name = proj

/-! ### Concrete sample data used by the claim checks below -/

/-- Fixed current instant injected for datetime.utcnow in the samples. -/
def nowW : DateTime := ⟨2026, 1, 2, 3, 4, 5, 123456⟩

/-- Deterministic stand-in for the uuid4 stream: distinct UUID-shaped
strings per call index. -/
def genW (i : Nat) : String :=
  if i = 0 then "aaaaaaaa-aaaa-4aaa-8aaa-aaaaaaaaaaaa"
  else if i = 1 then "ffffffff-ffff-4fff-8fff-ffffffffffff"
  else "00000000-0000-4000-8000-000000000000"

/-- Root of a two-record trace whose child references a parent id that no
record in the collection carries. -/
def c1Root : Run :=
  { id := "11111111-1111-4111-8111-111111111111", parent_run_id := none
    dotted_order := some "20230505T051324571809Z11111111111141118111111111111111"
    start_time := some "2023-05-05T05:13:24.571809Z", end_time := none
    name := some "root", run_type := some "chain", extra := none }

/-- Record whose parent_run_id resolves to no id in the collection. -/
def c1Orphan : Run :=
  { id := "22222222-2222-4222-8222-222222222222"
    parent_run_id := some "99999999-9999-4999-8999-999999999999"
    dotted_order := some
      "20230505T051324571809Z11111111111141118111111111111111.20230505T051325000000Z22222222222242228222222222222222"
    start_time := some "2023-05-05T05:13:25Z", end_time := none
    name := some "orphan-child", run_type := some "llm", extra := none }

/-- Collection with an unresolvable parent reference. -/
def c1Runs : List Run := [c1Root, c1Orphan]

/-- Result of transforming the orphan-containing collection. -/
def c1Res : Except String (TState × Heap × List TRun) :=
  transform_runs nowW genW (TState.init "copied" true) [] c1Runs

/-- Single run used to witness the timestamp-component claim. -/
def c2Run : Run :=
  { id := "44444444-4444-4444-8444-444444444444", parent_run_id := none
    dotted_order := some "20230505T051324571809Z44444444444444448444444444444444"
    start_time := some "2023-05-05T05:13:24.571809Z", end_time := some "2023-05-05T05:13:26Z"
    name := some "r", run_type := some "chain", extra := none }

/-- Transformer state with preserve_timestamps false and the sample run
already registered in id_mapping, as the first pass would leave it. -/
def c2State : TState :=
  { TState.init "proj" false with
    id_mapping := [("44444444-4444-4444-8444-444444444444", genW 0)] }

/-- Run whose start_time is present but not a recognizable timestamp. -/
def c7Run : Run :=
  { id := "55555555-5555-4555-8555-555555555555", parent_run_id := none
    dotted_order := some "x", start_time := some "yesterday", end_time := none
    name := some "bad", run_type := some "tool", extra := none }

/-- Collection containing the malformed-timestamp run. -/
def c7Runs : List Run := [c7Run]

/-- Root of a well-formed two-record trace (extra objects at addresses 0
and 1 of goodHeap). -/
def goodRoot : Run :=
  { id := "11111111-1111-4111-8111-111111111111", parent_run_id := none
    dotted_order := some "20230505T051324571809Z11111111111141118111111111111111"
    start_time := some "2023-05-05T05:13:24.571809Z", end_time := some "2023-05-05T05:13:27Z"
    name := some "root", run_type := some "chain", extra := some 0 }

/-- Child of goodRoot. -/
def goodChild : Run :=
  { id := "22222222-2222-4222-8222-222222222222"
    parent_run_id := some "11111111-1111-4111-8111-111111111111"
    dotted_order := some
      "20230505T051324571809Z11111111111141118111111111111111.20230505T051325000002Z22222222222242228222222222222222"
    start_time := some "2023-05-05T05:13:25.000002Z", end_time := none
    name := some "child", run_type := some "llm", extra := some 1 }

/-- Well-formed single-root trace of size two. -/
def goodRuns : List Run := [goodRoot, goodChild]

/-- Heap backing the extra objects of goodRuns; the child's extra already
carries a metadata dict with a pre-existing key. -/
def goodHeap : Heap :=
  [⟨none, []⟩, ⟨some [("user", JVal.vstr "alice")], [("k", JVal.vstr "v")]⟩]

/-- Result of transforming the well-formed trace. -/
def goodRes : Except String (TState × Heap × List TRun) :=
  transform_runs nowW genW (TState.init "proj" true) goodHeap goodRuns

/-- Root of the three-record counterexample trace for the
order-preservation law. -/
def c3Root : Run :=
  { id := "11111111-1111-4111-8111-111111111111", parent_run_id := none
    dotted_order := some "20230505T051324571809Z11111111111141118111111111111111"
    start_time := some "2023-05-05T05:13:24.571809Z", end_time := none
    name := some "root", run_type := some "chain", extra := none }

/-- First child, started at the same microsecond as its sibling. -/
def c3B : Run :=
  { id := "22222222-2222-4222-8222-222222222222"
    parent_run_id := some "11111111-1111-4111-8111-111111111111"
    dotted_order := some
      "20230505T051324571809Z11111111111141118111111111111111.20230505T051325000000Z22222222222242228222222222222222"
    start_time := some "2023-05-05T05:13:25Z", end_time := none
    name := some "b", run_type := some "llm", extra := none }

/-- Second child, started at the same microsecond as its sibling. -/
def c3C : Run :=
  { id := "33333333-3333-4333-8333-333333333333"
    parent_run_id := some "11111111-1111-4111-8111-111111111111"
    dotted_order := some
      "20230505T051324571809Z11111111111141118111111111111111.20230505T051325000000Z33333333333343338333333333333333"
    start_time := some "2023-05-05T05:13:25Z", end_time := none
    name := some "c", run_type := some "llm", extra := none }

/-- Valid single-root trace with two same-timestamp siblings. -/
def c3Runs : List Run := [c3Root, c3B, c3C]

/-- Result of transforming the sibling-tie trace; genW gives the first
sibling a lexicographically larger id than the second, a draw uuid4
can produce. -/
def c3Res : Except String (TState × Heap × List TRun) :=
  transform_runs nowW genW (TState.init "proj" true) [] c3Runs

/-- Old-id renderings of the two-record trace goodRuns, as they appear
inside its canonical dotted orders. -/
def goodX (i : Nat) : String :=
  if i = 0 then "Z11111111111141118111111111111111"
  else "Z22222222222242228222222222222222"

/-- Single root run carrying no extra object at all. -/
def c10Run : Run :=
  { id := "66666666-6666-4666-8666-666666666666", parent_run_id := none
    dotted_order := some "20230505T051324571809Z66666666666646668666666666666666"
    start_time := some "2023-05-05T05:13:24.571809Z", end_time := none
    name := some "noextra", run_type := some "chain", extra := none }

/-- Collection with the extra-less run. -/
def c10Runs : List Run := [c10Run]

/-- Result of transforming the extra-less collection from an empty heap. -/
def c10Res : Except String (TState × Heap × List TRun) :=
  transform_runs nowW genW (TState.init "proj" true) [] c10Runs

/-! ## Lemmas about the dict and heap models -/

theorem dictGet_dictSet_same (d : Dict) (k : String) (v : JVal) :
    dictGet (dictSet d k v) k = some v := by
  induction d with
  | nil => simp [dictSet, dictGet, List.lookup]
  | cons kv d ih =>
    obtain ⟨k', v'⟩ := kv
    by_cases h : k' = k
    · subst h
      simp [dictSet, dictGet, List.lookup]
    · simp only [dictGet] at ih
      have hb : (k == k') = false := beq_eq_false_iff_ne.mpr (Ne.symm h)
      simp [dictSet, dictGet, List.lookup, h, hb, ih]

theorem dictGet_dictSet_other (d : Dict) (k k' : String) (v : JVal) (h : k ≠ k') :
    dictGet (dictSet d k' v) k = dictGet d k := by
  have hb : (k == k') = false := beq_eq_false_iff_ne.mpr h
  induction d with
  | nil => simp [dictSet, dictGet, List.lookup, hb]
  | cons kv d ih =>
    obtain ⟨k0, v0⟩ := kv
    by_cases h0 : k0 = k'
    · subst h0
      simp [dictSet, dictGet, List.lookup, hb]
    · simp only [dictGet] at ih
      by_cases hk : k = k0
      · subst hk
        simp [dictSet, dictGet, List.lookup, h0]
      · have hb0 : (k == k0) = false := beq_eq_false_iff_ne.mpr hk
        simp [dictSet, dictGet, List.lookup, h0, hb0, ih]

theorem heapModify_length (h : Heap) (a : Nat) (f : ExtraVal → ExtraVal) :
    (heapModify h a f).length = h.length := by
  induction h generalizing a with
  | nil => simp [heapModify]
  | cons e h ih =>
    cases a with
    | zero => simp [heapModify]
    | succ a => simp [heapModify, ih]

theorem heapGet_heapModify_same (h : Heap) (a : Nat) (f : ExtraVal → ExtraVal) :
    heapGet (heapModify h a f) a = (heapGet h a).map f := by
  induction h generalizing a with
  | nil => simp [heapModify, heapGet]
  | cons e h ih =>
    cases a with
    | zero => simp [heapModify, heapGet]
    | succ a => simpa [heapModify, heapGet] using ih a

theorem heapGet_heapModify_other (h : Heap) (a b : Nat) (f : ExtraVal → ExtraVal)
    (hab : b ≠ a) : heapGet (heapModify h a f) b = heapGet h b := by
  induction h generalizing a b with
  | nil => simp [heapModify, heapGet]
  | cons e h ih =>
    cases a with
    | zero =>
      cases b with
      | zero => exact absurd rfl hab
      | succ b => simp [heapModify, heapGet]
    | succ a =>
      cases b with
      | zero => simp [heapModify, heapGet]
      | succ b =>
        simpa [heapModify, heapGet] using ih a b (fun hh => hab (by omega))

theorem heapGet_append_lt (h h' : Heap) (a : Nat) (ha : a < h.length) :
    heapGet (h ++ h') a = heapGet h a := by
  simp [heapGet, List.get?_eq_getElem?, List.getElem?_append_left ha]

/-! ## Lemmas about the string order model -/

theorem charListLt_cons_iff (a b : Char) (as bs : List Char) :
    charListLt (a :: as) (b :: bs) = true ↔
      a.toNat < b.toNat ∨ (a.toNat = b.toNat ∧ charListLt as bs = true) := by
  simp only [charListLt]
  by_cases h1 : a.toNat < b.toNat
  · simp [h1]
  · by_cases h2 : b.toNat < a.toNat
    · simp only [h1, if_false, h2, if_true]
      constructor
      · intro h; exact absurd h (by simp)
      · rintro (h | ⟨h, _⟩)
        · exact h.elim
        · exact absurd h2 (by omega)
    · simp only [h1, if_false, h2, if_false]
      constructor
      · intro h; exact Or.inr ⟨by omega, h⟩
      · rintro (h | ⟨_, h⟩)
        · exact h.elim
        · exact h

theorem charListLt_irrefl : ∀ l, charListLt l l = false
  | [] => rfl
  | a :: as => by
    rw [Bool.eq_false_iff]
    intro h
    rcases (charListLt_cons_iff a a as as).mp h with h | ⟨_, h⟩
    · omega
    · exact absurd h (by rw [charListLt_irrefl as]; simp)

theorem charListLt_asymm : ∀ a b, charListLt a b = true → charListLt b a = false
  | [], [] => by simp [charListLt]
  | [], _ :: _ => fun _ => rfl
  | _ :: _, [] => by simp [charListLt]
  | a :: as, b :: bs => by
    intro h
    rw [Bool.eq_false_iff]
    intro h'
    rcases (charListLt_cons_iff a b as bs).mp h with h1 | ⟨h1, h1'⟩ <;>
      rcases (charListLt_cons_iff b a bs as).mp h' with h2 | ⟨h2, h2'⟩
    · omega
    · omega
    · omega
    · exact absurd h2' (by rw [charListLt_asymm as bs h1']; simp)

theorem charListLt_trans : ∀ a b c, charListLt a b = true → charListLt b c = true →
    charListLt a c = true
  | [], b, [] => fun _ h2 => by cases b <;> simp [charListLt] at h2
  | [], _, _ :: _ => fun _ _ => rfl
  | _ :: _, [], _ => fun h1 _ => by simp [charListLt] at h1
  | _ :: _, _ :: _, [] => fun _ h2 => by simp [charListLt] at h2
  | a :: as, b :: bs, c :: cs => by
    intro h1 h2
    rcases (charListLt_cons_iff a b as bs).mp h1 with hab | ⟨hab, hab'⟩ <;>
      rcases (charListLt_cons_iff b c bs cs).mp h2 with hbc | ⟨hbc, hbc'⟩
    · exact (charListLt_cons_iff a c as cs).mpr (Or.inl (by omega))
    · exact (charListLt_cons_iff a c as cs).mpr (Or.inl (by omega))
    · exact (charListLt_cons_iff a c as cs).mpr (Or.inl (by omega))
    · exact (charListLt_cons_iff a c as cs).mpr
        (Or.inr ⟨by omega, charListLt_trans as bs cs hab' hbc'⟩)

theorem charListLt_conn : ∀ a b, charListLt a b = false → charListLt b a = false → a = b
  | [], [] => fun _ _ => rfl
  | [], _ :: _ => by simp [charListLt]
  | _ :: _, [] => by simp [charListLt]
  | a :: as, b :: bs => by
    intro h1 h2
    rw [Bool.eq_false_iff] at h1 h2
    have hab : ¬a.toNat < b.toNat := fun h =>
      h1 ((charListLt_cons_iff a b as bs).mpr (Or.inl h))
    have hba : ¬b.toNat < a.toNat := fun h =>
      h2 ((charListLt_cons_iff b a bs as).mpr (Or.inl h))
    have hn : a.toNat = b.toNat := by omega
    have he : a = b := Char.ext (UInt32.toNat.inj hn)
    subst he
    have htl : as = bs := by
      refine charListLt_conn as bs ?_ ?_ <;> rw [Bool.eq_false_iff] <;> intro h
      · exact h1 ((charListLt_cons_iff a a as bs).mpr (Or.inr ⟨rfl, h⟩))
      · exact h2 ((charListLt_cons_iff a a bs as).mpr (Or.inr ⟨rfl, h⟩))
    rw [htl]

theorem strLe_of_not (s t : String) (h : strLe s t = false) : strLe t s = true := by
  simp only [strLe, strLt, Bool.not_eq_false'] at h
  simp only [strLe, strLt, Bool.not_eq_true', charListLt_asymm _ _ h]

theorem strLe_trans (a b c : String) (h1 : strLe a b = true) (h2 : strLe b c = true) :
    strLe a c = true := by
  simp only [strLe, strLt, Bool.not_eq_true'] at h1 h2 ⊢
  by_cases hca : charListLt c.data a.data = true
  · by_cases hbc : charListLt b.data c.data = true
    · exact absurd (charListLt_trans _ _ _ hbc hca) (by simp [h1])
    · have : b.data = c.data := charListLt_conn _ _ (by simpa using hbc) h2
      rw [this] at h1
      exact absurd hca (by simp [h1])
  · simpa using hca

/-! ## Lemmas about the stable sort model -/

theorem insertSorted_perm (le : α → α → Bool) (x : α) (l : List α) :
    (insertSorted le x l).Perm (x :: l) := by
  induction l with
  | nil => exact List.Perm.refl _
  | cons y ys ih =>
    simp only [insertSorted]
    split
    · exact (ih.cons y).trans (List.Perm.swap x y ys)
    · exact List.Perm.refl _

theorem pySorted_perm (le : α → α → Bool) (xs : List α) : (pySorted le xs).Perm xs := by
  have key : ∀ (ys acc : List α),
      (List.foldl (fun a x => insertSorted le x a) acc ys).Perm (acc ++ ys) := by
    intro ys
    induction ys with
    | nil => intro acc; simp
    | cons y ys ih =>
      intro acc
      have h1 := ih (insertSorted le y acc)
      have h2 : (insertSorted le y acc ++ ys).Perm ((y :: acc) ++ ys) :=
        (insertSorted_perm le y acc).append_right ys
      have h3 : ((y :: acc) ++ ys).Perm (acc ++ y :: ys) := by
        simpa using (@List.perm_middle _ y acc ys).symm
      exact (h1.trans h2).trans h3
  simpa [pySorted] using key xs []

theorem pySorted_length (le : α → α → Bool) (xs : List α) :
    (pySorted le xs).length = xs.length :=
  (pySorted_perm le xs).length_eq

theorem pySorted_mem (le : α → α → Bool) (x : α) (xs : List α) :
    x ∈ pySorted le xs ↔ x ∈ xs :=
  (pySorted_perm le xs).mem_iff

theorem insertSorted_eq_append (le : α → α → Bool) (x : α) :
    ∀ l, (∀ y ∈ l, le y x = true) → insertSorted le x l = l ++ [x]
  | [], _ => rfl
  | y :: ys, h => by
    have hy : le y x = true := h y (by simp)
    simp only [insertSorted, hy, if_true, List.cons_append, List.cons.injEq, true_and]
    exact insertSorted_eq_append le x ys (fun z hz => h z (by simp [hz]))

theorem pySorted_eq_self (le : α → α → Bool) (l : List α)
    (h : List.Pairwise (fun a b => le a b = true) l) : pySorted le l = l := by
  have key : ∀ (ys acc : List α), List.Pairwise (fun a b => le a b = true) (acc ++ ys) →
      List.foldl (fun a x => insertSorted le x a) acc ys = acc ++ ys := by
    intro ys
    induction ys with
    | nil => intro acc _; simp
    | cons y ys ih =>
      intro acc hp
      have hacc : ∀ z ∈ acc, le z y = true := by
        intro z hz
        exact (List.pairwise_append.mp hp).2.2 z hz y (by simp)
      have hstep : insertSorted le y acc = acc ++ [y] := insertSorted_eq_append le y acc hacc
      have hp' : List.Pairwise (fun a b => le a b = true) ((acc ++ [y]) ++ ys) := by
        simpa [List.append_assoc] using hp
      simp only [List.foldl_cons, hstep, ih (acc ++ [y]) hp', List.append_assoc,
        List.singleton_append]
  simpa [pySorted] using key l [] (by simpa using h)

theorem insertSorted_pairwise (le : α → α → Bool)
    (htot : ∀ a b, le a b = false → le b a = true)
    (htrans : ∀ a b c, le a b = true → le b c = true → le a c = true) (x : α) :
    ∀ l, List.Pairwise (fun a b => le a b = true) l →
      List.Pairwise (fun a b => le a b = true) (insertSorted le x l)
  | [], _ => by simp [insertSorted]
  | y :: ys, h => by
    rcases List.pairwise_cons.mp h with ⟨hy, hys⟩
    simp only [insertSorted]
    by_cases hle : le y x = true
    · simp only [hle, if_true]
      refine List.pairwise_cons.mpr ⟨?_, insertSorted_pairwise le htot htrans x ys hys⟩
      intro z hz
      rcases List.mem_cons.mp ((insertSorted_perm le x ys).mem_iff.mp hz) with hzx | hzys
      · exact hzx ▸ hle
      · exact hy z hzys
    · simp only [hle, if_false]
      refine List.pairwise_cons.mpr ⟨?_, h⟩
      intro z hz
      rcases List.mem_cons.mp hz with hzy | hzys
      · exact hzy ▸ htot y x (by simpa using hle)
      · exact htrans x y z (htot y x (by simpa using hle)) (hy z hzys)

theorem pySorted_pairwise (le : α → α → Bool)
    (htot : ∀ a b, le a b = false → le b a = true)
    (htrans : ∀ a b c, le a b = true → le b c = true → le a c = true) (xs : List α) :
    List.Pairwise (fun a b => le a b = true) (pySorted le xs) := by
  have key : ∀ (ys acc : List α), List.Pairwise (fun a b => le a b = true) acc →
      List.Pairwise (fun a b => le a b = true)
        (List.foldl (fun a x => insertSorted le x a) acc ys) := by
    intro ys
    induction ys with
    | nil => intro acc hacc; simpa
    | cons y ys ih =>
      intro acc hacc
      exact ih (insertSorted le y acc) (insertSorted_pairwise le htot htrans y acc hacc)
  simpa [pySorted] using key xs [] (by simp)

/-! ## Lemmas about one transformation step -/

theorem parseStartTime_none (now : DateTime) : parseStartTime now none = Except.ok now := rfl

theorem parseStartTime_some_ok (now : DateTime) (s : String) (dt : DateTime)
    (h : fromisoModel (zToOffset s) = some dt) :
    parseStartTime now (some s) = Except.ok dt := by
  simp [parseStartTime, h]

theorem parseStartTime_some_error (now : DateTime) (s : String)
    (h : fromisoModel (zToOffset s) = none) :
    parseStartTime now (some s) = Except.error ("Invalid isoformat string: " ++ s) := by
  simp [parseStartTime, h]

theorem parseStartTime_exists_ok (now : DateTime) (ost : Option String)
    (h : ∀ s, ost = some s → (fromisoModel (zToOffset s)).isSome = true) :
    ∃ dt, parseStartTime now ost = Except.ok dt := by
  cases ost with
  | none => exact ⟨now, rfl⟩
  | some s =>
    rcases Option.isSome_iff_exists.mp (h s rfl) with ⟨dt, hdt⟩
    exact ⟨dt, parseStartTime_some_ok now s dt hdt⟩

theorem transformSingleRun_eq (now : DateTime) (st : TState) (heap : Heap) (run : Run)
    (new_id : String) (dt : DateTime)
    (h1 : List.lookup run.id st.id_mapping = some new_id)
    (h2 : parseStartTime now run.start_time = Except.ok dt) :
    transformSingleRun now st heap run = Except.ok
      ({ st with dotted_order_mapping :=
           mapSet st.dotted_order_mapping run.id (dottedFor st run new_id dt) },
       extraHeapAfter heap run.extra run.id,
       mkTransformed now st heap run new_id dt) := by
  simp [transformSingleRun, h1, h2]

theorem transformSingleRun_error_of_badTime (now : DateTime) (st : TState) (heap : Heap)
    (run : Run) (s : String) (hs : run.start_time = some s)
    (hbad : fromisoModel (zToOffset s) = none) :
    ∃ e, transformSingleRun now st heap run = Except.error e := by
  cases hl : List.lookup run.id st.id_mapping with
  | none => exact ⟨"KeyError", by simp [transformSingleRun, hl]⟩
  | some nid =>
    refine ⟨"Invalid isoformat string: " ++ s, ?_⟩
    simp [transformSingleRun, hl, hs, parseStartTime_some_error now s hbad]

theorem transformSingleRun_ok_inv (now : DateTime) (st st' : TState) (heap heap' : Heap)
    (run : Run) (t : TRun)
    (h : transformSingleRun now st heap run = Except.ok (st', heap', t)) :
    st'.id_mapping = st.id_mapping ∧ st'.new_trace_id = st.new_trace_id ∧
      st'.target_project = st.target_project ∧
      st'.preserve_timestamps = st.preserve_timestamps ∧
      heap' = extraHeapAfter heap run.extra run.id ∧
      t.extra = (allocExtra heap run.extra).2 := by
  unfold transformSingleRun at h
  cases hl : List.lookup run.id st.id_mapping with
  | none => rw [hl] at h; cases h
  | some nid =>
    rw [hl] at h
    cases hp : parseStartTime now run.start_time with
    | error e => rw [hp] at h; cases h
    | ok dt =>
      rw [hp] at h
      cases h
      exact ⟨rfl, rfl, rfl, rfl, rfl, rfl⟩

/-! ## Lemmas about the first pass -/

theorem firstPass_project (gen : Nat → String) :
    ∀ (l : List Run) (i : Nat) (st : TState),
      (firstPass gen i st l).target_project = st.target_project ∧
      (firstPass gen i st l).preserve_timestamps = st.preserve_timestamps ∧
      (firstPass gen i st l).dotted_order_mapping = st.dotted_order_mapping
  | [], _, _ => ⟨rfl, rfl, rfl⟩
  | run :: rest, i, st => firstPass_project gen rest (i + 1) (firstPassStep gen i st run)

theorem firstPass_lookup_isSome (gen : Nat → String) :
    ∀ (l : List Run) (i : Nat) (st : TState) (k : String),
      (k ∈ l.map Run.id ∨ (List.lookup k st.id_mapping).isSome = true) →
      (List.lookup k (firstPass gen i st l).id_mapping).isSome = true
  | [], _, _, _, h => by
    rcases h with h | h
    · simp at h
    · exact h
  | run :: rest, i, st, k, h => by
    rw [firstPass]
    apply firstPass_lookup_isSome gen rest (i + 1)
    by_cases hk : k = run.id
    · subst hk
      right
      simp [firstPassStep, mapSet, List.lookup]
    · rcases h with h | h
      · rcases List.mem_map.mp h with ⟨r, hr, hid⟩
        rcases List.mem_cons.mp hr with hr0 | hr1
        · exact absurd (hr0 ▸ hid) (Ne.symm hk)
        · exact Or.inl (List.mem_map.mpr ⟨r, hr1, hid⟩)
      · right
        have hb : (k == run.id) = false := beq_eq_false_iff_ne.mpr hk
        simpa [firstPassStep, mapSet, List.lookup, hb] using h

theorem firstPass_lookup_notmem (gen : Nat → String) :
    ∀ (l : List Run) (i : Nat) (st : TState) (k : String), k ∉ l.map Run.id →
      List.lookup k (firstPass gen i st l).id_mapping = List.lookup k st.id_mapping
  | [], _, _, _, _ => rfl
  | run :: rest, i, st, k, h => by
    have hk : k ≠ run.id := by
      intro he
      exact h (by simp [he])
    have hrest : k ∉ rest.map Run.id := by
      intro hm
      exact h (by simp [List.mem_map] at hm ⊢; tauto)
    have hb : (k == run.id) = false := beq_eq_false_iff_ne.mpr hk
    rw [firstPass, firstPass_lookup_notmem gen rest (i + 1) (firstPassStep gen i st run) k hrest]
    simp [firstPassStep, mapSet, List.lookup, hb]

theorem firstPass_lookup_eq (gen : Nat → String) :
    ∀ (l : List Run) (i : Nat) (st : TState) (k : Nat), k < l.length →
      (l.map Run.id).Nodup →
      List.lookup (l.getD k dummyRun).id (firstPass gen i st l).id_mapping =
        some (gen (i + k))
  | [], _, _, k, hk, _ => by simp at hk
  | run :: rest, i, st, k, hk, hnd => by
    rcases List.pairwise_cons.mp hnd with ⟨hhead, htail⟩
    cases k with
    | zero =>
      rw [List.getD_cons_zero]
      have hnm : run.id ∉ rest.map Run.id := by
        intro hm
        rcases List.mem_map.mp hm with ⟨r, hr, hid⟩
        exact hhead r.id (List.mem_map.mpr ⟨r, hr, rfl⟩) hid.symm
      rw [firstPass, firstPass_lookup_notmem gen rest (i + 1) (firstPassStep gen i st run)
        run.id hnm]
      simp [firstPassStep, mapSet, List.lookup]
    | succ k' =>
      rw [List.getD_cons_succ, firstPass]
      have h := firstPass_lookup_eq gen rest (i + 1) (firstPassStep gen i st run) k'
        (by simp only [List.length_cons] at hk; omega) htail
      have hidx : i + (k' + 1) = i + 1 + k' := by omega
      rw [hidx]
      exact h

theorem firstPass_trace_noroot (gen : Nat → String) :
    ∀ (l : List Run) (i : Nat) (st : TState), (∀ r ∈ l, r.parent_run_id ≠ none) →
      (firstPass gen i st l).new_trace_id = st.new_trace_id
  | [], _, _, _ => rfl
  | run :: rest, i, st, h => by
    rw [firstPass, firstPass_trace_noroot gen rest (i + 1) (firstPassStep gen i st run)
      (fun r hr => h r (by simp [hr]))]
    simp [firstPassStep, h run (by simp)]

theorem firstPass_trace_unique (gen : Nat → String) :
    ∀ (l : List Run) (i : Nat) (st : TState) (j : Nat), j < l.length →
      (l.getD j dummyRun).parent_run_id = none →
      (∀ k, k < l.length → (l.getD k dummyRun).parent_run_id = none → k = j) →
      (firstPass gen i st l).new_trace_id = some (gen (i + j))
  | [], _, _, j, hj, _, _ => by simp at hj
  | run :: rest, i, st, j, hj, hroot, huniq => by
    cases j with
    | zero =>
      rw [List.getD_cons_zero] at hroot
      have hnr : ∀ r ∈ rest, r.parent_run_id ≠ none := by
        intro r hr hnone
        rcases List.mem_iff_getElem.mp hr with ⟨k, hk, hkr⟩
        have hg : (rest.getD k dummyRun).parent_run_id = none := by
          rw [List.getD_eq_getElem rest dummyRun hk, hkr]
          exact hnone
        have := huniq (k + 1) (by simpa using Nat.succ_lt_succ hk) (by simpa using hg)
        omega
      rw [firstPass, firstPass_trace_noroot gen rest (i + 1) (firstPassStep gen i st run) hnr]
      simp [firstPassStep, hroot]
    | succ j' =>
      rw [List.getD_cons_succ] at hroot
      have huniq' : ∀ k, k < rest.length → (rest.getD k dummyRun).parent_run_id = none →
          k = j' := by
        intro k hk hkroot
        have := huniq (k + 1) (by simpa using Nat.succ_lt_succ hk) (by simpa using hkroot)
        omega
      rw [firstPass]
      have h := firstPass_trace_unique gen rest (i + 1) (firstPassStep gen i st run) j'
        (by simp only [List.length_cons] at hj; omega) hroot huniq'
      have hidx : i + (j' + 1) = i + 1 + j' := by omega
      rw [hidx]
      exact h

/-! ## Success and length of the second pass -/

theorem secondPass_ok_of (now : DateTime) :
    ∀ (l : List Run) (st : TState) (heap : Heap),
      (∀ r ∈ l, (List.lookup r.id st.id_mapping).isSome = true) →
      (∀ r ∈ l, ∀ s, r.start_time = some s → (fromisoModel (zToOffset s)).isSome = true) →
      ∃ st' heap' os, secondPass now st heap l = Except.ok (st', heap', os) ∧
        os.length = l.length ∧ st'.id_mapping = st.id_mapping
  | [], st, heap, _, _ => ⟨st, heap, [], rfl, rfl, rfl⟩
  | run :: rest, st, heap, hids, hts => by
    rcases Option.isSome_iff_exists.mp (hids run (by simp)) with ⟨nid, hnid⟩
    rcases parseStartTime_exists_ok now run.start_time (hts run (by simp)) with ⟨dt, hdt⟩
    have hstep := transformSingleRun_eq now st heap run nid dt hnid hdt
    rcases secondPass_ok_of now rest
        { st with dotted_order_mapping :=
            mapSet st.dotted_order_mapping run.id (dottedFor st run nid dt) }
        (extraHeapAfter heap run.extra run.id)
        (fun r hr => hids r (by simp [hr]))
        (fun r hr => hts r (by simp [hr])) with
      ⟨st', heap', os, hrec, hlen, hid⟩
    refine ⟨st', heap', mkTransformed now st heap run nid dt :: os, ?_, by simp [hlen], ?_⟩
    · rw [secondPass]
      simp [hstep, hrec]
    · exact hid

/-! ## Lemmas about parent positions, ancestor chains and expected
dotted orders -/

theorem getD_id_inj (rs : List Run) (hnd : (rs.map Run.id).Nodup) (i j : Nat)
    (hi : i < rs.length) (hj : j < rs.length)
    (hij : (rs.getD i dummyRun).id = (rs.getD j dummyRun).id) : i = j := by
  have hi' : i < (rs.map Run.id).length := by simpa using hi
  have hj' : j < (rs.map Run.id).length := by simpa using hj
  have h1 : (rs.map Run.id)[i] = (rs.getD i dummyRun).id := by
    rw [List.getD_eq_getElem rs dummyRun hi, List.getElem_map]
  have h2 : (rs.map Run.id)[j] = (rs.getD j dummyRun).id := by
    rw [List.getD_eq_getElem rs dummyRun hj, List.getElem_map]
  exact (List.Nodup.getElem_inj_iff hnd).mp (by rw [h1, h2, hij])

theorem pidxOf_lt (rs : List Run) (j i : Nat) (h : pidxOf rs j = some i) : i < j := by
  unfold pidxOf at h
  cases hp : (rs.getD j dummyRun).parent_run_id with
  | none => rw [hp] at h; cases h
  | some p =>
    rw [hp] at h
    have := List.mem_of_find?_eq_some h
    simpa using this

theorem pidxOf_none_iff (rs : List Run) (htopo : TopoList rs) (j : Nat) (hj : j < rs.length) :
    pidxOf rs j = none ↔ (rs.getD j dummyRun).parent_run_id = none := by
  constructor
  · intro h
    cases hp : (rs.getD j dummyRun).parent_run_id with
    | none => rfl
    | some p =>
      rcases htopo.resolves j hj p hp with ⟨i, hij, hid⟩
      have hfind : ((List.range j).find? (fun i => (rs.getD i dummyRun).id == p)).isSome = true := by
        rw [List.find?_isSome]
        exact ⟨i, by simpa using hij, by simpa using hid⟩
      simp only [pidxOf, hp] at h
      rw [h] at hfind
      cases hfind
  · intro h
    unfold pidxOf
    rw [h]

theorem pidxOf_some (rs : List Run) (htopo : TopoList rs) (j : Nat) (hj : j < rs.length)
    (p : String) (hp : (rs.getD j dummyRun).parent_run_id = some p) :
    ∃ i, pidxOf rs j = some i ∧ i < j ∧ (rs.getD i dummyRun).id = p := by
  rcases htopo.resolves j hj p hp with ⟨i0, hi0, hid0⟩
  have hfind : ((List.range j).find? (fun i => (rs.getD i dummyRun).id == p)).isSome = true := by
    rw [List.find?_isSome]
    exact ⟨i0, by simpa using hi0, by simpa using hid0⟩
  rcases Option.isSome_iff_exists.mp hfind with ⟨i, hi⟩
  refine ⟨i, ?_, ?_, ?_⟩
  · simp only [pidxOf, hp]
    exact hi
  · simpa using List.mem_of_find?_eq_some hi
  · simpa using List.find?_some hi

theorem chainF_congr (pidx : Nat → Option Nat) (hdec : ∀ a b, pidx a = some b → b < a) :
    ∀ (f : Nat), ∀ (f' j : Nat), j ≤ f → j ≤ f' → chainF pidx f j = chainF pidx f' j
  | 0, f', j, hf, hf' => by
    have hj : j = 0 := by omega
    subst hj
    cases f' with
    | zero => rfl
    | succ f' =>
      cases hp : pidx 0 with
      | none => simp [chainF, hp]
      | some b => exact absurd (hdec 0 b hp) (by omega)
  | f + 1, f', j, hf, hf' => by
    cases f' with
    | zero =>
      have hj : j = 0 := by omega
      subst hj
      cases hp : pidx 0 with
      | none => simp [chainF, hp]
      | some b => exact absurd (hdec 0 b hp) (by omega)
    | succ f' =>
      cases hp : pidx j with
      | none => simp [chainF, hp]
      | some i =>
        have hij : i < j := hdec j i hp
        simp only [chainF, hp]
        rw [chainF_congr pidx hdec f f' i (by omega) (by omega)]

theorem chainIdx_unfold (pidx : Nat → Option Nat) (hdec : ∀ a b, pidx a = some b → b < a)
    (j : Nat) :
    chainIdx pidx j = match pidx j with
      | none => [j]
      | some i => chainIdx pidx i ++ [j] := by
  cases j with
  | zero =>
    cases hp : pidx 0 with
    | none => simp [chainIdx, chainF, hp]
    | some b => exact absurd (hdec 0 b hp) (by omega)
  | succ j' =>
    cases hp : pidx (j' + 1) with
    | none => simp [chainIdx, chainF, hp]
    | some i =>
      have hij : i < j' + 1 := hdec _ _ hp
      simp only [chainIdx, chainF, hp]
      rw [chainF_congr pidx hdec j' i i (by omega) (by omega)]

theorem chainIdx_ne_nil (pidx : Nat → Option Nat) (j : Nat) : chainIdx pidx j ≠ [] := by
  unfold chainIdx
  cases j with
  | zero =>
    rw [chainF]
    simp
  | succ j' =>
    rw [chainF]
    cases pidx (j' + 1) <;> simp

theorem dotJoin_append_last (p : String) : ∀ (l : List String), l ≠ [] →
    dotJoin (l ++ [p]) = dotJoin l ++ "." ++ p
  | [], h => absurd rfl h
  | [q], _ => rfl
  | q :: q' :: l, _ => by
    have h := dotJoin_append_last p (q' :: l) (by simp)
    show q ++ "." ++ dotJoin ((q' :: l) ++ [p]) = q ++ "." ++ dotJoin (q' :: l) ++ "." ++ p
    rw [h]
    simp [String.append_assoc]

theorem partOf_ne_empty (now : DateTime) (gen : Nat → String) (rs : List Run) (i : Nat) :
    partOf now gen rs i ≠ "" := by
  unfold partOf
  intro h
  have : (tsOf now rs i ++ "Z" ++ stripHyphens (gen i)).data = ("" : String).data := by rw [h]
  simp [String.data_append] at this

theorem dotJoin_parts_ne_empty (parts : List String) (hne : parts ≠ [])
    (hp : ∀ p ∈ parts, p ≠ "") : dotJoin parts ≠ "" := by
  match parts, hne with
  | [q], _ =>
    exact hp q (by simp)
  | q :: q' :: l, _ =>
    simp only [dotJoin]
    intro h
    have hd : (q ++ "." ++ dotJoin (q' :: l)).data = ("" : String).data := by rw [h]
    simp only [String.data_append] at hd
    rcases List.append_eq_nil.mp hd with ⟨hd1, _⟩
    rcases List.append_eq_nil.mp hd1 with ⟨_, hdot⟩
    simp at hdot

theorem expDotted_ne_empty (now : DateTime) (gen : Nat → String) (rs : List Run) (j : Nat) :
    expDotted now gen rs j ≠ "" := by
  unfold expDotted
  apply dotJoin_parts_ne_empty
  · simp [chainIdx_ne_nil]
  · intro p hp
    rcases List.mem_map.mp hp with ⟨i, _, hi⟩
    exact hi ▸ partOf_ne_empty now gen rs i

theorem expDotted_root (now : DateTime) (gen : Nat → String) (rs : List Run) (j : Nat)
    (hdec : ∀ a b, pidxOf rs a = some b → b < a) (h : pidxOf rs j = none) :
    expDotted now gen rs j = partOf now gen rs j := by
  unfold expDotted
  rw [chainIdx_unfold (pidxOf rs) hdec j, h]
  rfl

theorem expDotted_child (now : DateTime) (gen : Nat → String) (rs : List Run) (j i : Nat)
    (hdec : ∀ a b, pidxOf rs a = some b → b < a) (h : pidxOf rs j = some i) :
    expDotted now gen rs j = expDotted now gen rs i ++ "." ++ partOf now gen rs j := by
  unfold expDotted
  rw [chainIdx_unfold (pidxOf rs) hdec j, h]
  simp only [List.map_append, List.map_cons, List.map_nil]
  rw [dotJoin_append_last]
  simp [chainIdx_ne_nil]

/-! ## Specification of the second pass on topologically valid input -/

theorem lookup_cons_self (k : String) (v : String) (m : List (String × String)) :
    List.lookup k ((k, v) :: m) = some v := by
  simp [List.lookup]

theorem lookup_cons_ne (k k' : String) (v : String) (m : List (String × String))
    (h : (k == k') = false) : List.lookup k ((k', v) :: m) = List.lookup k m := by
  simp [List.lookup, h]

theorem tsOf_of_parse (now : DateTime) (rs : List Run) (m : Nat) (dt : DateTime)
    (hdt : parseStartTime now (rs.getD m dummyRun).start_time = Except.ok dt) :
    tsOf now rs m = strftimeCompact dt := by
  unfold tsOf
  cases hst : (rs.getD m dummyRun).start_time with
  | none =>
    rw [hst, parseStartTime_none] at hdt
    cases hdt
    rfl
  | some s =>
    rw [hst] at hdt
    cases hiso : fromisoModel (zToOffset s) with
    | none => rw [parseStartTime_some_error now s hiso] at hdt; cases hdt
    | some d =>
      rw [parseStartTime_some_ok now s d hiso] at hdt
      cases hdt
      simp [hiso]

theorem dottedFor_spec (now : DateTime) (gen : Nat → String) (rs : List Run)
    (htopo : TopoList rs) (hgen : ∀ k, k < rs.length → gen k ≠ "")
    (M : List (String × String))
    (hM : ∀ k, k < rs.length → List.lookup (rs.getD k dummyRun).id M = some (gen k))
    (m : Nat) (hm : m < rs.length) (st : TState) (dt : DateTime)
    (hid : st.id_mapping = M)
    (hdom : ∀ i, i < m → List.lookup (rs.getD i dummyRun).id st.dotted_order_mapping =
      some (expDotted now gen rs i))
    (hdt : parseStartTime now (rs.getD m dummyRun).start_time = Except.ok dt) :
    newParentId st (rs.getD m dummyRun) = (pidxOf rs m).map gen ∧
      dottedFor st (rs.getD m dummyRun) (gen m) dt = expDotted now gen rs m := by
  have hcp : strftimeCompact dt ++ "Z" ++ stripHyphens (gen m) = partOf now gen rs m := by
    rw [partOf, tsOf_of_parse now rs m dt hdt]
  cases hp : (rs.getD m dummyRun).parent_run_id with
  | none =>
    have hpidx : pidxOf rs m = none := by
      unfold pidxOf
      rw [hp]
    have hnp : newParentId st (rs.getD m dummyRun) = none := by
      unfold newParentId
      rw [hp]
    refine ⟨by rw [hnp, hpidx]; rfl, ?_⟩
    rw [expDotted_root now gen rs m (fun a b => pidxOf_lt rs a b) hpidx, ← hcp]
    unfold dottedFor
    rw [hnp]
    rfl
  | some p =>
    rcases pidxOf_some rs htopo m hm p hp with ⟨i, hpi, him, hidp⟩
    have hin : i < rs.length := by omega
    have hpne : p ≠ "" := by
      rw [← hidp]
      exact htopo.ids_ne (rs.getD i dummyRun)
        (by rw [List.getD_eq_getElem rs dummyRun hin]; exact List.getElem_mem hin)
    have hlook : List.lookup p st.id_mapping = some (gen i) := by
      rw [hid, ← hidp]
      exact hM i hin
    have hnp : newParentId st (rs.getD m dummyRun) = some (gen i) := by
      unfold newParentId
      rw [hp]
      show (if p = "" then none else List.lookup p st.id_mapping) = some (gen i)
      rw [if_neg hpne, hlook]
    have hgi : gen i ≠ "" := hgen i hin
    have hdlook : List.lookup ((rs.getD m dummyRun).parent_run_id.getD "None")
        st.dotted_order_mapping = some (expDotted now gen rs i) := by
      rw [hp, Option.getD_some, ← hidp]
      exact hdom i him
    have hne : expDotted now gen rs i ≠ "" := expDotted_ne_empty now gen rs i
    refine ⟨by rw [hnp, hpi]; rfl, ?_⟩
    rw [expDotted_child now gen rs m i (fun a b => pidxOf_lt rs a b) hpi, ← hcp]
    unfold dottedFor
    rw [hnp, hdlook]
    simp [truthy, hgi, hne]

theorem secondPass_go (now : DateTime) (gen : Nat → String) (rs : List Run)
    (htopo : TopoList rs) (hgen : ∀ k, k < rs.length → gen k ≠ "")
    (M : List (String × String))
    (hM : ∀ k, k < rs.length → List.lookup (rs.getD k dummyRun).id M = some (gen k))
    (tid : Option String) (proj : String) (flag : Bool) :
    ∀ (tl : List Run) (m : Nat) (st : TState) (heap : Heap), rs.drop m = tl →
      st.id_mapping = M → st.new_trace_id = tid → st.target_project = proj →
      st.preserve_timestamps = flag →
      (∀ i, i < m → List.lookup (rs.getD i dummyRun).id st.dotted_order_mapping =
        some (expDotted now gen rs i)) →
      (∀ r ∈ tl, ∀ s, r.start_time = some s → (fromisoModel (zToOffset s)).isSome = true) →
      ∃ st' heap' os, secondPass now st heap tl = Except.ok (st', heap', os) ∧
        os.length = tl.length ∧ st'.id_mapping = M ∧ st'.new_trace_id = tid ∧
        ∀ k, k < os.length → OutSpec now gen rs tid proj flag (m + k) (os.getD k dummyTRun)
  | [], m, st, heap, _, hid, htid, _, _, _, _ =>
    ⟨st, heap, [], rfl, rfl, hid, htid, by simp⟩
  | r :: tl', m, st, heap, hdrop, hid, htid, hproj, hflag, hdom, hts => by
    have hm : m < rs.length := by
      by_contra hge
      rw [List.drop_eq_nil_of_le (by omega)] at hdrop
      cases hdrop
    have hcons : rs.drop m = rs.getD m dummyRun :: rs.drop (m + 1) := by
      rw [List.getD_eq_getElem rs dummyRun hm]
      exact List.drop_eq_getElem_cons hm
    rw [hdrop] at hcons
    have hr : r = rs.getD m dummyRun := (List.cons.injEq _ _ _ _ ▸ hcons).1
    have htl' : rs.drop (m + 1) = tl' := ((List.cons.injEq _ _ _ _ ▸ hcons).2).symm
    have hlook : List.lookup r.id st.id_mapping = some (gen m) := by
      rw [hid, hr]
      exact hM m hm
    rcases parseStartTime_exists_ok now r.start_time (hts r (by simp)) with ⟨dt, hdt⟩
    have hdt' : parseStartTime now (rs.getD m dummyRun).start_time = Except.ok dt := by
      rw [← hr]; exact hdt
    rcases dottedFor_spec now gen rs htopo hgen M hM m hm st dt hid
      (fun i hi => hdom i hi) hdt' with ⟨hnp, hdf⟩
    have hstep := transformSingleRun_eq now st heap r (gen m) dt hlook hdt
    set st1 : TState :=
      { st with dotted_order_mapping :=
          mapSet st.dotted_order_mapping r.id (dottedFor st r (gen m) dt) } with hst1
    have hdom1 : ∀ i, i < m + 1 →
        List.lookup (rs.getD i dummyRun).id st1.dotted_order_mapping =
          some (expDotted now gen rs i) := by
      intro i hi
      rcases Nat.lt_or_ge i m with him | hge
      · have hne : (rs.getD i dummyRun).id ≠ r.id := by
          rw [hr]
          intro he
          have := getD_id_inj rs htopo.nodup i m (by omega) hm he
          omega
        have hb : ((rs.getD i dummyRun).id == r.id) = false := beq_eq_false_iff_ne.mpr hne
        exact (lookup_cons_ne (rs.getD i dummyRun).id r.id
          (dottedFor st r (gen m) dt) st.dotted_order_mapping hb).trans (hdom i him)
      · have hi_eq : i = m := by omega
        rw [hi_eq, ← hr]
        exact (lookup_cons_self r.id (dottedFor st r (gen m) dt)
          st.dotted_order_mapping).trans (by rw [hr]; exact congrArg some hdf)
    rcases secondPass_go now gen rs htopo hgen M hM tid proj flag tl' (m + 1) st1
        (extraHeapAfter heap r.extra r.id) htl' hid htid hproj hflag hdom1
        (fun r' hr' => hts r' (by simp [hr'])) with
      ⟨st', heap', os, hrec, hlen, hid', htid', hout⟩
    refine ⟨st', heap', mkTransformed now st heap r (gen m) dt :: os, ?_, by simp [hlen], hid',
      htid', ?_⟩
    · rw [secondPass]
      simp [hstep, hrec]
    · intro k hk
      cases k with
      | zero =>
        simp only [Nat.add_zero, List.getD_cons_zero]
        refine ⟨rfl, htid, ?_, ?_, ?_, ?_, ?_, ?_, hproj⟩
        · rw [show (mkTransformed now st heap r (gen m) dt).parent_run_id =
            newParentId st r from rfl, hr, hnp]
        · rw [show (mkTransformed now st heap r (gen m) dt).dotted_order =
            dottedFor st r (gen m) dt from rfl, hr, hdf]
        · rw [hr]; rfl
        · rw [hr]; rfl
        · rw [show (mkTransformed now st heap r (gen m) dt).start_time =
            (if st.preserve_timestamps then r.start_time else some (isoformatDT now)) from rfl,
            hr, hflag]
        · rw [show (mkTransformed now st heap r (gen m) dt).end_time =
            (if st.preserve_timestamps then r.end_time else none) from rfl, hr, hflag]
      | succ k' =>
        have hk' : k' < os.length := by simpa using hk
        have := hout k' hk'
        rw [List.getD_cons_succ]
        have hidx : m + (k' + 1) = m + 1 + k' := by omega
        rw [hidx]
        exact this

theorem transform_runs_spec (now : DateTime) (gen : Nat → String) (st : TState) (heap : Heap)
    (runs : List Run) (htopo : TopoList (pySorted runLe runs))
    (hgen : ∀ k, k < runs.length → gen k ≠ "")
    (hts : ∀ r ∈ runs, ∀ s, r.start_time = some s →
      (fromisoModel (zToOffset s)).isSome = true) :
    ∃ st' heap' os, transform_runs now gen st heap runs = Except.ok (st', heap', os) ∧
      os.length = runs.length ∧
      st'.new_trace_id = (firstPass gen 0 st (pySorted runLe runs)).new_trace_id ∧
      ∀ k, k < os.length →
        OutSpec now gen (pySorted runLe runs)
          ((firstPass gen 0 st (pySorted runLe runs)).new_trace_id)
          st.target_project st.preserve_timestamps k (os.getD k dummyTRun) := by
  set rs := pySorted runLe runs with hrs
  have hlenrs : rs.length = runs.length := pySorted_length runLe runs
  have hgen' : ∀ k, k < rs.length → gen k ≠ "" := fun k hk => hgen k (by omega)
  set st1 := firstPass gen 0 st rs with hst1
  have hM : ∀ k, k < rs.length → List.lookup (rs.getD k dummyRun).id st1.id_mapping =
      some (gen k) := by
    intro k hk
    have := firstPass_lookup_eq gen rs 0 st k hk htopo.nodup
    simpa using this
  rcases firstPass_project gen rs 0 st with ⟨hproj, hflag, _⟩
  rcases secondPass_go now gen rs htopo hgen' st1.id_mapping hM st1.new_trace_id
      st.target_project st.preserve_timestamps rs 0 st1 heap (by simp) rfl rfl hproj hflag
      (by omega)
      (fun r hr => hts r ((pySorted_mem runLe r runs).mp hr)) with
    ⟨st', heap', os, hrun, hlen, _, htid', hout⟩
  refine ⟨st', heap', os, hrun, by omega, htid', ?_⟩
  intro k hk
  simpa using hout k hk

/-! ## Heap effects: aliasing of extra and injected provenance -/

theorem extraHeapAfter_length (heap : Heap) (ex : Option Nat) (oid : String) :
    heap.length ≤ (extraHeapAfter heap ex oid).length := by
  cases ex with
  | none => simp [extraHeapAfter, allocExtra, heapModify_length]
  | some a => simp [extraHeapAfter, allocExtra, heapModify_length]

theorem heapGet_isSome_of_lt (heap : Heap) (a : Nat) (ha : a < heap.length) :
    ∃ e, heapGet heap a = some e := by
  rcases List.get?_eq_get ha with h
  exact ⟨heap.get ⟨a, ha⟩, h⟩

theorem provenancedB_inject (e : ExtraVal) (oid : String) :
    provenancedB [setMetaKey "original_run_id" (JVal.vstr oid)
      (setMetaKey "copied_from_shared_trace" (JVal.vbool true) (ensureMetadata e))] 0 = true := by
  unfold provenancedB heapGet setMetaKey ensureMetadata
  simp only [List.get?]
  have hne : ("copied_from_shared_trace" : String) ≠ "original_run_id" := by decide
  by_cases hm : e.metadata = none <;>
    simp [hm, dictGet_dictSet_same, dictGet_dictSet_other _ _ _ _ hne]

theorem extraHeapAfter_provenance (heap : Heap) (a : Nat) (oid : String)
    (ha : a < heap.length) :
    provenancedB (extraHeapAfter heap (some a) oid) a = true := by
  rcases heapGet_isSome_of_lt heap a ha with ⟨e, he⟩
  have hget : heapGet (extraHeapAfter heap (some a) oid) a =
      some (setMetaKey "original_run_id" (JVal.vstr oid)
        (setMetaKey "copied_from_shared_trace" (JVal.vbool true) (ensureMetadata e))) := by
    unfold extraHeapAfter allocExtra
    rw [heapGet_heapModify_same, heapGet_heapModify_same, heapGet_heapModify_same, he]
    rfl
  have h0 := provenancedB_inject e oid
  unfold provenancedB at h0 ⊢
  rw [hget]
  simpa [heapGet] using h0

theorem provenancedB_of_eq (h h' : Heap) (a a' : Nat)
    (he : heapGet h' a' = heapGet h a) (hp : provenancedB h a = true) :
    provenancedB h' a' = true := by
  unfold provenancedB at hp ⊢
  rw [he]
  exact hp

theorem extraHeapAfter_preserve (heap : Heap) (ex : Option Nat) (oid : String) (a : Nat)
    (ha : a < heap.length) (hp : provenancedB heap a = true) :
    provenancedB (extraHeapAfter heap ex oid) a = true := by
  cases ex with
  | none =>
    have hne : a ≠ heap.length := by omega
    apply provenancedB_of_eq heap _ a a _ hp
    unfold extraHeapAfter allocExtra
    rw [heapGet_heapModify_other _ _ _ _ hne, heapGet_heapModify_other _ _ _ _ hne,
      heapGet_heapModify_other _ _ _ _ hne]
    exact heapGet_append_lt heap _ a ha
  | some b =>
    by_cases hab : a = b
    · subst hab
      exact extraHeapAfter_provenance heap a oid ha
    · apply provenancedB_of_eq heap _ a a _ hp
      unfold extraHeapAfter allocExtra
      rw [heapGet_heapModify_other _ _ _ _ hab, heapGet_heapModify_other _ _ _ _ hab,
        heapGet_heapModify_other _ _ _ _ hab]

theorem secondPass_extra (now : DateTime) :
    ∀ (l : List Run) (st : TState) (heap : Heap) (st' : TState) (heap' : Heap)
      (os : List TRun), secondPass now st heap l = Except.ok (st', heap', os) →
      heap.length ≤ heap'.length ∧
      (∀ a, a < heap.length → provenancedB heap a = true → provenancedB heap' a = true) ∧
      (∀ k, k < l.length → ∀ a, (l.getD k dummyRun).extra = some a → a < heap.length →
        k < os.length ∧ (os.getD k dummyTRun).extra = a ∧ provenancedB heap' a = true)
  | [], st, heap, st', heap', os, h => by
    rw [secondPass] at h
    cases h
    exact ⟨le_refl _, fun a _ hp => hp, fun k hk => by simp at hk⟩
  | r :: tl, st, heap, st', heap', os, h => by
    rw [secondPass] at h
    cases hstep : transformSingleRun now st heap r with
    | error e => simp only [hstep] at h; exact Except.noConfusion h
    | ok v =>
      obtain ⟨st1, heap1, t⟩ := v
      simp only [hstep] at h
      cases hrec : secondPass now st1 heap1 tl with
      | error e => simp only [hrec] at h; exact Except.noConfusion h
      | ok w =>
        obtain ⟨st2, heap2, os2⟩ := w
        simp only [hrec, Except.ok.injEq, Prod.mk.injEq] at h
        obtain ⟨h1, h2, h3⟩ := h
        subst h1
        subst h2
        subst h3
        rcases transformSingleRun_ok_inv now st st1 heap heap1 r t hstep with
          ⟨_, _, _, _, hheap1, hextra⟩
        rcases secondPass_extra now tl st1 heap1 st2 heap2 os2 hrec with ⟨hlen, hpres, hks⟩
        have hlen1 : heap.length ≤ heap1.length := by
          rw [hheap1]
          exact extraHeapAfter_length heap r.extra r.id
        refine ⟨by omega, ?_, ?_⟩
        · intro a ha hp
          apply hpres a (by omega)
          rw [hheap1]
          exact extraHeapAfter_preserve heap r.extra r.id a ha hp
        · intro k hk a hxa halt
          cases k with
          | zero =>
            rw [List.getD_cons_zero] at hxa
            refine ⟨by simp, ?_, ?_⟩
            · rw [List.getD_cons_zero, hextra, hxa]
              rfl
            · apply hpres a (by omega)
              rw [hheap1, hxa]
              exact extraHeapAfter_provenance heap a r.id halt
          | succ k' =>
            rw [List.getD_cons_succ] at hxa
            have hk' : k' < tl.length := by simpa using hk
            rcases hks k' hk' a hxa (by omega) with ⟨h1, h2, h3⟩
            exact ⟨by simpa using h1, by simpa using h2, h3⟩

theorem secondPass_extra_parallel (now : DateTime) :
    ∀ (l : List Run) (stA : TState) (heapA : Heap) (stA' : TState) (heapA' : Heap)
      (osA : List TRun) (stB : TState) (heapB : Heap) (stB' : TState) (heapB' : Heap)
      (osB : List TRun),
      secondPass now stA heapA l = Except.ok (stA', heapA', osA) →
      secondPass now stB heapB l = Except.ok (stB', heapB', osB) →
      heapA = heapB →
      heapA' = heapB' ∧ osA.map TRun.extra = osB.map TRun.extra
  | [], _, _, _, _, _, _, _, _, _, _, hA, hB, hAB => by
    rw [secondPass] at hA hB
    cases hA
    cases hB
    exact ⟨hAB, rfl⟩
  | r :: tl, stA, heapA, stA', heapA', osA, stB, heapB, stB', heapB', osB, hA, hB, hAB => by
    rw [secondPass] at hA hB
    cases hstepA : transformSingleRun now stA heapA r with
    | error e => simp only [hstepA] at hA; exact Except.noConfusion hA
    | ok vA =>
      obtain ⟨stA1, heapA1, tA⟩ := vA
      simp only [hstepA] at hA
      cases hrecA : secondPass now stA1 heapA1 tl with
      | error e => simp only [hrecA] at hA; exact Except.noConfusion hA
      | ok wA =>
        obtain ⟨stA2, heapA2, osA2⟩ := wA
        simp only [hrecA, Except.ok.injEq, Prod.mk.injEq] at hA
        obtain ⟨hA1, hA2, hA3⟩ := hA
        subst hA1
        subst hA2
        subst hA3
        cases hstepB : transformSingleRun now stB heapB r with
        | error e => simp only [hstepB] at hB; exact Except.noConfusion hB
        | ok vB =>
          obtain ⟨stB1, heapB1, tB⟩ := vB
          simp only [hstepB] at hB
          cases hrecB : secondPass now stB1 heapB1 tl with
          | error e => simp only [hrecB] at hB; exact Except.noConfusion hB
          | ok wB =>
            obtain ⟨stB2, heapB2, osB2⟩ := wB
            simp only [hrecB, Except.ok.injEq, Prod.mk.injEq] at hB
            obtain ⟨hB1, hB2, hB3⟩ := hB
            subst hB1
            subst hB2
            subst hB3
            rcases transformSingleRun_ok_inv now stA stA1 heapA heapA1 r tA hstepA with
              ⟨_, _, _, _, hh1A, hxA⟩
            rcases transformSingleRun_ok_inv now stB stB1 heapB heapB1 r tB hstepB with
              ⟨_, _, _, _, hh1B, hxB⟩
            have hheq : heapA1 = heapB1 := by rw [hh1A, hh1B, hAB]
            rcases secondPass_extra_parallel now tl stA1 heapA1 stA2 heapA2 osA2 stB1 heapB1
              stB2 heapB2 osB2 hrecA hrecB hheq with ⟨hhe, hoe⟩
            refine ⟨hhe, ?_⟩
            simp only [List.map_cons, hoe]
            rw [hxA, hxB, hAB]

/-! ## String-order lemmas for the order-preservation law -/

theorem charListLt_nil_right : ∀ l : List Char, charListLt l [] = false
  | [] => rfl
  | _ :: _ => rfl

theorem charListLt_nil_left : ∀ l : List Char, l ≠ [] → charListLt [] l = true
  | [], h => absurd rfl h
  | _ :: _, _ => rfl

theorem charListLt_append_cancel (p : List Char) (a b : List Char) :
    charListLt (p ++ a) (p ++ b) = charListLt a b := by
  induction p with
  | nil => rfl
  | cons c p ih =>
    show charListLt (c :: (p ++ a)) (c :: (p ++ b)) = _
    simp only [charListLt]
    rw [if_neg (by omega), if_neg (by omega), ih]

theorem charListLt_append_of_ne : ∀ (a b : List Char), a.length = b.length → a ≠ b →
    ∀ x y, charListLt (a ++ x) (b ++ y) = charListLt a b
  | [], [], _, hne, _, _ => absurd rfl hne
  | [], _ :: _, hl, _, _, _ => by simp at hl
  | _ :: _, [], hl, _, _, _ => by simp at hl
  | a :: as, b :: bs, hl, hne, x, y => by
    show charListLt (a :: (as ++ x)) (b :: (bs ++ y)) = charListLt (a :: as) (b :: bs)
    simp only [charListLt]
    by_cases hab : a.toNat < b.toNat
    · rw [if_pos hab, if_pos hab]
    · rw [if_neg hab, if_neg hab]
      by_cases hba : b.toNat < a.toNat
      · rw [if_pos hba, if_pos hba]
      · rw [if_neg hba, if_neg hba]
        have hn : a.toNat = b.toNat := by omega
        have heq : a = b := Char.ext (UInt32.toNat.inj hn)
        subst heq
        have hne' : as ≠ bs := fun h => hne (by rw [h])
        exact charListLt_append_of_ne as bs (by simpa using hl) hne' x y

theorem dotJoin_cons_data (p : String) (ps : List String) :
    (dotJoin (p :: ps)).data =
      p.data ++ (if ps = [] then [] else '.' :: (dotJoin ps).data) := by
  cases ps with
  | nil => simp [dotJoin]
  | cons q ps' =>
    show (p ++ "." ++ dotJoin (q :: ps')).data = _
    rw [String.data_append, String.data_append]
    simp

theorem dotJoin_map_cons_data (T Z : Nat → String) (j : Nat) (c : List Nat) :
    (dotJoin ((j :: c).map (fun t => T t ++ Z t))).data =
      (T j).data ++ ((Z j).data ++
        (if c = [] then [] else '.' :: (dotJoin (c.map (fun t => T t ++ Z t))).data)) := by
  rw [List.map_cons, dotJoin_cons_data, String.data_append, List.append_assoc]
  congr 1
  congr 1
  rcases c with _ | ⟨c0, c'⟩
  · rfl
  · rfl

theorem strftimeCompact_length (d : DateTime) : (strftimeCompact d).length = 21 := rfl

theorem tsOf_length (now : DateTime) (rs : List Run) (i : Nat)
    (h : ∀ s, (rs.getD i dummyRun).start_time = some s →
      (fromisoModel (zToOffset s)).isSome = true) :
    (tsOf now rs i).length = 21 := by
  unfold tsOf
  cases hst : (rs.getD i dummyRun).start_time with
  | none => exact strftimeCompact_length now
  | some s =>
    rcases Option.isSome_iff_exists.mp (h s hst) with ⟨dt, hdt⟩
    show (match fromisoModel (zToOffset s) with
      | some dt => strftimeCompact dt
      | none => "").length = 21
    rw [hdt]
    exact strftimeCompact_length dt

theorem chainIdx_mem_le (pidx : Nat → Option Nat) (hdec : ∀ a b, pidx a = some b → b < a) :
    ∀ j x, x ∈ chainIdx pidx j → x ≤ j := by
  intro j
  induction j using Nat.strong_induction_on with
  | _ j ih =>
    intro x hx
    rw [chainIdx_unfold pidx hdec j] at hx
    cases hp : pidx j with
    | none =>
      rw [hp] at hx
      have hx' : x ∈ [j] := hx
      simp at hx'
      omega
    | some i =>
      rw [hp] at hx
      have hx' : x ∈ chainIdx pidx i ++ [j] := hx
      rcases List.mem_append.mp hx' with h1 | h2
      · have := ih i (hdec j i hp) x h1
        have := hdec j i hp
        omega
      · simp at h2
        omega

theorem dotJoin_lt_congr (T X Y : Nat → String) (n : Nat)
    (hT : ∀ i, i < n → (T i).length = 21)
    (hTd : ∀ i j, i < n → j < n → i ≠ j → T i ≠ T j) :
    ∀ (cu cv : List Nat), (∀ x ∈ cu, x < n) → (∀ x ∈ cv, x < n) →
      charListLt (dotJoin (cu.map (fun t => T t ++ X t))).data
          (dotJoin (cv.map (fun t => T t ++ X t))).data =
        charListLt (dotJoin (cu.map (fun t => T t ++ Y t))).data
          (dotJoin (cv.map (fun t => T t ++ Y t))).data
  | [], [], _, _ => rfl
  | [], j :: cv, _, hv => by
    show charListLt (dotJoin ([] : List String)).data _ =
      charListLt (dotJoin ([] : List String)).data _
    rw [show (dotJoin ([] : List String)).data = [] from rfl,
      dotJoin_map_cons_data T X j cv, dotJoin_map_cons_data T Y j cv]
    have hTj : (T j).data ≠ [] := by
      have h21 := hT j (hv j (by simp))
      intro hnil
      rw [show (T j).length = (T j).data.length from rfl, hnil] at h21
      simp at h21
    rw [charListLt_nil_left _ (by simp [hTj]), charListLt_nil_left _ (by simp [hTj])]
  | i :: cu, [], _, _ => by
    show charListLt _ (dotJoin ([] : List String)).data =
      charListLt _ (dotJoin ([] : List String)).data
    rw [show (dotJoin ([] : List String)).data = [] from rfl,
      charListLt_nil_right, charListLt_nil_right]
  | i :: cu, j :: cv, hu, hv => by
    have hin : i < n := hu i (by simp)
    have hjn : j < n := hv j (by simp)
    rw [dotJoin_map_cons_data T X i cu, dotJoin_map_cons_data T X j cv,
      dotJoin_map_cons_data T Y i cu, dotJoin_map_cons_data T Y j cv]
    by_cases hij : i = j
    · subst hij
      rw [charListLt_append_cancel, charListLt_append_cancel, charListLt_append_cancel,
        charListLt_append_cancel]
      rcases hcu : cu with _ | ⟨u0, cu'⟩ <;> rcases hcv : cv with _ | ⟨v0, cv'⟩
      · rfl
      · rfl
      · rfl
      · show charListLt (List.cons '.' _) (List.cons '.' _) =
          charListLt (List.cons '.' _) (List.cons '.' _)
        have hrec := dotJoin_lt_congr T X Y n hT hTd (u0 :: cu') (v0 :: cv')
          (fun x hx => hu x (by simp [hcu, hx]))
          (fun x hx => hv x (by simp [hcv, hx]))
        show charListLt (['.'] ++ _) (['.'] ++ _) = charListLt (['.'] ++ _) (['.'] ++ _)
        rw [charListLt_append_cancel, charListLt_append_cancel, hrec]
    · have hTne : (T i).data ≠ (T j).data := fun h => (hTd i j hin hjn hij) (String.ext h)
      have hlen : (T i).data.length = (T j).data.length := by
        have h1 := hT i hin
        have h2 := hT j hjn
        rw [show (T i).length = (T i).data.length from rfl] at h1
        rw [show (T j).length = (T j).data.length from rfl] at h2
        omega
      rw [charListLt_append_of_ne _ _ hlen hTne, charListLt_append_of_ne _ _ hlen hTne]

theorem runLe_total (a b : Run) (h : runLe a b = false) : runLe b a = true :=
  strLe_of_not _ _ h

theorem runLe_trans (a b c : Run) (h1 : runLe a b = true) (h2 : runLe b c = true) :
    runLe a c = true :=
  strLe_trans _ _ _ h1 h2

theorem trunLe_total (a b : TRun) (h : trunLe a b = false) : trunLe b a = true :=
  strLe_of_not _ _ h

theorem trunLe_trans (a b c : TRun) (h1 : trunLe a b = true) (h2 : trunLe b c = true) :
    trunLe a c = true :=
  strLe_trans _ _ _ h1 h2

/-! ## Validity of concrete inputs, and record extensionality -/

theorem topoList_mk (rs : List Run)
    (h1 : (rs.map Run.id).Nodup)
    (h2 : ∀ r ∈ rs, r.id ≠ "")
    (h3 : ∀ j, j < rs.length →
      ((rs.getD j dummyRun).parent_run_id = none ∨
        ∃ i, i < j ∧ some ((rs.getD i dummyRun).id) = (rs.getD j dummyRun).parent_run_id)) :
    TopoList rs := by
  refine ⟨h1, h2, ?_⟩
  intro j hj p hp
  rcases h3 j hj with h | ⟨i, hij, hid⟩
  · rw [h] at hp
    cases hp
  · rw [hp] at hid
    exact ⟨i, hij, Option.some.inj hid⟩

theorem outSpec_ext (now : DateTime) (gen : Nat → String) (rs : List Run)
    (tid : Option String) (proj : String) (flag : Bool) (j : Nat) (o₁ o₂ : TRun)
    (h₁ : OutSpec now gen rs tid proj flag j o₁) (h₂ : OutSpec now gen rs tid proj flag j o₂)
    (hx : o₁.extra = o₂.extra) : o₁ = o₂ := by
  unfold OutSpec at h₁ h₂
  obtain ⟨a1, a2, a3, a4, a5, a6, a7, a8, a9⟩ := h₁
  obtain ⟨b1, b2, b3, b4, b5, b6, b7, b8, b9⟩ := h₂
  cases o₁
  cases o₂
  simp_all

/-! ## Claim C1: behavior on an unresolvable parent reference -/

/-- C1: the claim says transform aborts with a descriptive error on a
record whose parent_run_id resolves to no id in the collection and
never silently downgrades it to a root. The code does the opposite:
on the concrete two-record collection c1Runs, whose second record
references the absent parent id 99999999-9999-4999-8999-999999999999,
transform_runs succeeds, returns both records, and emits the orphan
with parent_run_id absent although the original had one, and with a
single-part root-shaped dotted_order. This is the silent downgrade the
spec calls a reportable defect, so the claim is right and the code is
wrong. -/
theorem C1_missing_parent_downgraded_not_aborted :
    c1Orphan.parent_run_id = some "99999999-9999-4999-8999-999999999999" ∧
    (∀ r ∈ c1Runs, r.id ≠ "99999999-9999-4999-8999-999999999999") ∧
    resultIsError c1Res = false ∧
    (outsOf c1Res).length = 2 ∧
    ((outsOf c1Res).getD 1 dummyTRun).parent_run_id = none ∧
    ((outsOf c1Res).getD 1 dummyTRun).dotted_order =
      "20230505T051325000000Zffffffffffff4fff8fffffffffffffff" := by
  decide

/-! ## Claim C2: dotted-order timestamp comes from the original
start_time, display timestamps from the flag -/

/-- C2: for every record whose start_time parses, the timestamp component
of the new dotted_order (the current part) is the compact rendering of
the ORIGINAL start_time, whatever preserve_timestamps is, while with
preserve_timestamps false the visible start_time of the output is the
current instant and end_time is absent. -/
theorem C2_dotted_from_original_start_time (now : DateTime) (st : TState) (heap : Heap)
    (run : Run) (s : String) (dt : DateTime) (nid : String)
    (hst : run.start_time = some s)
    (hdt : fromisoModel (zToOffset s) = some dt)
    (hnid : List.lookup run.id st.id_mapping = some nid) :
    ∃ st' heap' o, transformSingleRun now st heap run = Except.ok (st', heap', o) ∧
      (o.dotted_order = strftimeCompact dt ++ "Z" ++ stripHyphens nid ∨
        ∃ pdo, o.dotted_order = pdo ++ "." ++ (strftimeCompact dt ++ "Z" ++ stripHyphens nid)) ∧
      (st.preserve_timestamps = false →
        o.start_time = some (isoformatDT now) ∧ o.end_time = none) := by
  have hp : parseStartTime now run.start_time = Except.ok dt := by
    rw [hst]
    exact parseStartTime_some_ok now s dt hdt
  refine ⟨_, _, _, transformSingleRun_eq now st heap run nid dt hnid hp, ?_, ?_⟩
  · show dottedFor st run nid dt = _ ∨ ∃ pdo, dottedFor st run nid dt = _
    unfold dottedFor
    by_cases htr : truthy (newParentId st run) = true
    · rw [if_pos htr]
      cases hl : List.lookup ((run.parent_run_id).getD "None") st.dotted_order_mapping with
      | none => exact Or.inl (by simp)
      | some pdo =>
        by_cases hpe : pdo = ""
        · exact Or.inl (by simp [hpe])
        · exact Or.inr ⟨pdo, by simp [hpe]⟩
    · rw [if_neg htr]
      exact Or.inl rfl
  · intro hflag
    constructor
    · show (if st.preserve_timestamps then run.start_time else some (isoformatDT now)) = _
      rw [hflag]
      rfl
    · show (if st.preserve_timestamps then run.end_time else none) = _
      rw [hflag]
      rfl

/-- Witness for C2 at concrete data: the run c2Run under a state with
preserve_timestamps false. -/
theorem C2_witness :
    (c2Run.start_time = some "2023-05-05T05:13:24.571809Z" ∧
      fromisoModel (zToOffset "2023-05-05T05:13:24.571809Z") =
        some ⟨2023, 5, 5, 5, 13, 24, 571809⟩ ∧
      List.lookup c2Run.id c2State.id_mapping = some (genW 0)) ∧
    (∃ st' heap' o, transformSingleRun nowW c2State [] c2Run = Except.ok (st', heap', o) ∧
      (o.dotted_order = strftimeCompact ⟨2023, 5, 5, 5, 13, 24, 571809⟩ ++ "Z" ++
          stripHyphens (genW 0) ∨
        ∃ pdo, o.dotted_order = pdo ++ "." ++ (strftimeCompact ⟨2023, 5, 5, 5, 13, 24, 571809⟩ ++
          "Z" ++ stripHyphens (genW 0))) ∧
      (c2State.preserve_timestamps = false →
        o.start_time = some (isoformatDT nowW) ∧ o.end_time = none)) :=
  ⟨⟨by decide, by decide, by decide⟩,
    C2_dotted_from_original_start_time nowW c2State [] c2Run
      "2023-05-05T05:13:24.571809Z" ⟨2023, 5, 5, 5, 13, 24, 571809⟩ (genW 0)
      (by decide) (by decide) (by decide)⟩

/-! ## Claim C7: a malformed timestamp aborts the whole transformation -/

theorem secondPass_error_of_bad (now : DateTime) :
    ∀ (l : List Run) (st : TState) (heap : Heap) (r : Run) (s : String), r ∈ l →
      r.start_time = some s → fromisoModel (zToOffset s) = none →
      ∃ e, secondPass now st heap l = Except.error e
  | [], _, _, _, _, hr, _, _ => absurd hr (by simp)
  | q :: tl, st, heap, r, s, hr, hs, hbad => by
    rcases List.mem_cons.mp hr with hq | htl
    · subst hq
      rcases transformSingleRun_error_of_badTime now st heap r s hs hbad with ⟨e, he⟩
      exact ⟨e, by rw [secondPass]; simp [he]⟩
    · cases hstep : transformSingleRun now st heap q with
      | error e => exact ⟨e, by rw [secondPass]; simp [hstep]⟩
      | ok v =>
        obtain ⟨st1, heap1, t⟩ := v
        rcases secondPass_error_of_bad now tl st1 heap1 r s htl hs hbad with ⟨e, he⟩
        exact ⟨e, by rw [secondPass]; simp [hstep, he]⟩

/-- C7: whenever some record of the input collection has a present but
unparseable start_time, transform_runs raises, so it produces an error
and no output list at all; in particular it never substitutes the
current time for the unparseable value (substitution happens only for
an absent start_time or, for the visible timestamps, deliberately
under preserve_timestamps false). -/
theorem C7_malformed_timestamp_aborts (now : DateTime) (gen : Nat → String) (st : TState)
    (heap : Heap) (runs : List Run) (r : Run) (s : String) (hr : r ∈ runs)
    (hs : r.start_time = some s) (hbad : fromisoModel (zToOffset s) = none) :
    resultIsError (transform_runs now gen st heap runs) = true := by
  have hmem : r ∈ pySorted runLe runs := (pySorted_mem runLe r runs).mpr hr
  rcases secondPass_error_of_bad now (pySorted runLe runs)
      (firstPass gen 0 st (pySorted runLe runs)) heap r s hmem hs hbad with ⟨e, he⟩
  simp only [transform_runs]
  rw [he]
  rfl

/-- Witness for C7: a one-record collection whose start_time is the
unparseable string yesterday. -/
theorem C7_witness :
    (c7Run ∈ c7Runs ∧ c7Run.start_time = some "yesterday" ∧
      fromisoModel (zToOffset "yesterday") = none) ∧
    resultIsError (transform_runs nowW genW (TState.init "p" true) [] c7Runs) = true :=
  ⟨⟨by decide, by decide, by decide⟩,
    C7_malformed_timestamp_aborts nowW genW (TState.init "p" true) [] c7Runs c7Run
      "yesterday" (by decide) (by decide) (by decide)⟩

/-! ## Claim C8: output size equals input size -/

/-- C8: whenever every present start_time parses (which the spec's
failure semantics require of any input on which transform succeeds,
and which holds for every valid single-root input), transform_runs
succeeds and returns exactly as many records as it was given. The
statement needs no tree-shape hypothesis at all, so in particular it
holds for every valid single-root input forest of size N. -/
theorem C8_output_size (now : DateTime) (gen : Nat → String) (st : TState) (heap : Heap)
    (runs : List Run)
    (hts : ∀ r ∈ runs, ∀ s, r.start_time = some s →
      (fromisoModel (zToOffset s)).isSome = true) :
    ∃ st' heap' os, transform_runs now gen st heap runs = Except.ok (st', heap', os) ∧
      os.length = runs.length := by
  have hmem : ∀ r ∈ pySorted runLe runs, (List.lookup r.id
      (firstPass gen 0 st (pySorted runLe runs)).id_mapping).isSome = true := by
    intro r hr
    exact firstPass_lookup_isSome gen (pySorted runLe runs) 0 st r.id
      (Or.inl (List.mem_map.mpr ⟨r, hr, rfl⟩))
  rcases secondPass_ok_of now (pySorted runLe runs) (firstPass gen 0 st (pySorted runLe runs))
      heap hmem (fun r hr => hts r ((pySorted_mem runLe r runs).mp hr)) with
    ⟨st', heap', os, hok, hlen, _⟩
  refine ⟨st', heap', os, ?_, ?_⟩
  · simp only [transform_runs]
    exact hok
  · rw [hlen, pySorted_length]

/-- Witness for C8 on the concrete two-record single-root trace. -/
theorem C8_witness :
    (∀ r ∈ goodRuns, ∀ s, r.start_time = some s →
      (fromisoModel (zToOffset s)).isSome = true) ∧
    ∃ st' heap' os, transform_runs nowW genW (TState.init "proj" true) goodHeap goodRuns =
        Except.ok (st', heap', os) ∧ os.length = goodRuns.length :=
  ⟨by decide,
    C8_output_size nowW genW (TState.init "proj" true) goodHeap goodRuns (by decide)⟩

/-! ## Claim C10: aliasing of the extra object -/

/-- C10 counterexample: the claim as stated quantifies over every input
record and asserts the output record's extra is the very same object
as the input record's extra, with the provenance keys becoming visible
through the input. The record c10Run has no extra object at all
(extra absent), the initial heap is empty, yet the transformation
succeeds: the output's extra is a freshly allocated object (address 0
of the one-object final heap), aliasing nothing reachable from the
input, and the input collection is left unchanged. So the claim as
universally stated is false. -/
theorem C10_counterexample :
    c10Run.extra = none ∧
    resultIsError c10Res = false ∧
    (outsOf c10Res).length = 1 ∧
    ((outsOf c10Res).getD 0 dummyTRun).extra = 0 ∧
    (heapOf c10Res).length = 1 := by
  decide

/-- C10 amended: for every input record whose extra key is present and
non-null (a live object, modelled as a valid heap address), the
transformed record's extra is that very same object, no copy, and
after the call the object's metadata carries the two injected
provenance keys, copied_from_shared_trace mapped to true and
original_run_id set, visible through the input record as well. -/
theorem C10_extra_aliased_amended (now : DateTime) (gen : Nat → String) (st : TState)
    (heap : Heap) (runs : List Run) (st' : TState) (heap' : Heap) (os : List TRun)
    (htr : transform_runs now gen st heap runs = Except.ok (st', heap', os))
    (k : Nat) (hk : k < (pySorted runLe runs).length) (a : Nat)
    (hx : ((pySorted runLe runs).getD k dummyRun).extra = some a)
    (ha : a < heap.length) :
    k < os.length ∧ (os.getD k dummyTRun).extra = a ∧ provenancedB heap' a = true := by
  simp only [transform_runs] at htr
  rcases secondPass_extra now (pySorted runLe runs)
      (firstPass gen 0 st (pySorted runLe runs)) heap st' heap' os htr with ⟨_, _, hks⟩
  exact hks k hk a hx ha

/-- Witness for the amended C10 on the two-record trace whose child owns
an extra object with pre-existing metadata. -/
theorem C10_witness :
    (goodRes = Except.ok (stateOf goodRes, heapOf goodRes, outsOf goodRes) ∧
      ((pySorted runLe goodRuns).getD 1 dummyRun).extra = some 1 ∧
      1 < goodHeap.length) ∧
    (1 < (outsOf goodRes).length ∧ ((outsOf goodRes).getD 1 dummyTRun).extra = 1 ∧
      provenancedB (heapOf goodRes) 1 = true) :=
  ⟨⟨by rfl, by decide, by decide⟩,
    C10_extra_aliased_amended nowW genW (TState.init "proj" true) goodHeap goodRuns
      (stateOf goodRes) (heapOf goodRes) (outsOf goodRes) (by rfl) 1 (by decide) 1
      (by decide) (by decide)⟩

/-! ## Claim C6: the output tree is isomorphic to the input tree -/

/-- C6: on a valid input (distinct non-empty ids, every parent reference
resolving to an earlier record in dotted_order, parseable timestamps,
non-empty generated ids), every (parent, child) pair of the sorted
input maps to output records at the same positions with the child's
new parent_run_id equal to the parent's new id. -/
theorem C6_topology_preserved (now : DateTime) (gen : Nat → String) (st : TState)
    (heap : Heap) (runs : List Run)
    (htopo : TopoList (pySorted runLe runs))
    (hgen : ∀ k, k < runs.length → gen k ≠ "")
    (hts : ∀ r ∈ runs, ∀ s, r.start_time = some s →
      (fromisoModel (zToOffset s)).isSome = true) :
    ∃ st' heap' os, transform_runs now gen st heap runs = Except.ok (st', heap', os) ∧
      os.length = runs.length ∧
      ∀ i j, i < (pySorted runLe runs).length → j < (pySorted runLe runs).length →
        ((pySorted runLe runs).getD j dummyRun).parent_run_id =
          some (((pySorted runLe runs).getD i dummyRun).id) →
        (os.getD j dummyTRun).parent_run_id = some ((os.getD i dummyTRun).id) := by
  rcases transform_runs_spec now gen st heap runs htopo hgen hts with
    ⟨st', heap', os, hok, hlen, _, hout⟩
  refine ⟨st', heap', os, hok, hlen, ?_⟩
  intro i j hi hj hpar
  have hlenrs : (pySorted runLe runs).length = runs.length := pySorted_length runLe runs
  have hosj := hout j (by omega)
  have hosi := hout i (by omega)
  unfold OutSpec at hosj hosi
  obtain ⟨hidj, _, hparj, _⟩ := hosj
  obtain ⟨hidi, _, _, _⟩ := hosi
  rcases pidxOf_some (pySorted runLe runs) htopo j hj _ hpar with ⟨i0, hpi0, _, hid0⟩
  have hi0 : i0 = i := getD_id_inj (pySorted runLe runs) htopo.nodup i0 i
    (by have := pidxOf_lt (pySorted runLe runs) j i0 hpi0; omega) hi hid0
  rw [hparj, hpi0, hi0, hidi]
  rfl

/-- Witness for C6 on the two-record trace: the (root, child) pair of the
sorted input yields output child parent equal to output root id. -/
theorem C6_witness :
    (TopoList (pySorted runLe goodRuns) ∧ (∀ k, k < goodRuns.length → genW k ≠ "") ∧
      ∀ r ∈ goodRuns, ∀ s, r.start_time = some s →
        (fromisoModel (zToOffset s)).isSome = true) ∧
    (∃ st' heap' os, transform_runs nowW genW (TState.init "proj" true) goodHeap goodRuns =
        Except.ok (st', heap', os) ∧
      os.length = goodRuns.length ∧
      ∀ i j, i < (pySorted runLe goodRuns).length → j < (pySorted runLe goodRuns).length →
        ((pySorted runLe goodRuns).getD j dummyRun).parent_run_id =
          some (((pySorted runLe goodRuns).getD i dummyRun).id) →
        (os.getD j dummyTRun).parent_run_id = some ((os.getD i dummyTRun).id)) :=
  ⟨⟨topoList_mk _ (by decide) (by decide) (by decide), by decide, by decide⟩,
    C6_topology_preserved nowW genW (TState.init "proj" true) goodHeap goodRuns
      (topoList_mk _ (by decide) (by decide) (by decide)) (by decide) (by decide)⟩

/-! ## Claim C4: construction of the new dotted_order -/

/-- C4: on a valid input, every output record's dotted_order is built from
the current part, which is the fixed-width separator-free compact
rendering of the record's parsed original start time suffixed with the
literal Z, followed by the record's new identifier with its hyphens
removed; a root's dotted_order is the current part alone and a child's
is its parent's already-computed new dotted_order, a dot, then the
current part. -/
theorem C4_dotted_order_construction (now : DateTime) (gen : Nat → String) (st : TState)
    (heap : Heap) (runs : List Run)
    (htopo : TopoList (pySorted runLe runs))
    (hgen : ∀ k, k < runs.length → gen k ≠ "")
    (hts : ∀ r ∈ runs, ∀ s, r.start_time = some s →
      (fromisoModel (zToOffset s)).isSome = true) :
    ∃ st' heap' os, transform_runs now gen st heap runs = Except.ok (st', heap', os) ∧
      os.length = runs.length ∧
      ∀ j, j < (pySorted runLe runs).length →
        ∃ dt, parseStartTime now ((pySorted runLe runs).getD j dummyRun).start_time =
            Except.ok dt ∧
          (((pySorted runLe runs).getD j dummyRun).parent_run_id = none →
            (os.getD j dummyTRun).dotted_order =
              strftimeCompact dt ++ "Z" ++ stripHyphens ((os.getD j dummyTRun).id)) ∧
          ∀ i, i < (pySorted runLe runs).length →
            ((pySorted runLe runs).getD j dummyRun).parent_run_id =
              some (((pySorted runLe runs).getD i dummyRun).id) →
            (os.getD j dummyTRun).dotted_order = (os.getD i dummyTRun).dotted_order ++ "." ++
              (strftimeCompact dt ++ "Z" ++ stripHyphens ((os.getD j dummyTRun).id)) := by
  rcases transform_runs_spec now gen st heap runs htopo hgen hts with
    ⟨st', heap', os, hok, hlen, _, hout⟩
  refine ⟨st', heap', os, hok, hlen, ?_⟩
  intro j hj
  have hlenrs : (pySorted runLe runs).length = runs.length := pySorted_length runLe runs
  have hmemj : (pySorted runLe runs).getD j dummyRun ∈ runs := by
    rw [List.getD_eq_getElem _ dummyRun hj]
    exact (pySorted_mem runLe _ runs).mp (List.getElem_mem hj)
  rcases parseStartTime_exists_ok now ((pySorted runLe runs).getD j dummyRun).start_time
    (fun s hs => hts _ hmemj s hs) with ⟨dt, hdt⟩
  have hosj := hout j (by omega)
  unfold OutSpec at hosj
  obtain ⟨hidj, _, _, hdoj, _⟩ := hosj
  have hpart : partOf now gen (pySorted runLe runs) j =
      strftimeCompact dt ++ "Z" ++ stripHyphens ((os.getD j dummyTRun).id) := by
    rw [partOf, tsOf_of_parse now (pySorted runLe runs) j dt hdt, hidj]
  refine ⟨dt, hdt, ?_, ?_⟩
  · intro hroot
    have hpidx : pidxOf (pySorted runLe runs) j = none := by
      unfold pidxOf
      rw [hroot]
    rw [hdoj, expDotted_root now gen (pySorted runLe runs) j
      (fun a b => pidxOf_lt (pySorted runLe runs) a b) hpidx, hpart]
  · intro i hi hpar
    have hosi := hout i (by omega)
    unfold OutSpec at hosi
    obtain ⟨_, _, _, hdoi, _⟩ := hosi
    rcases pidxOf_some (pySorted runLe runs) htopo j hj _ hpar with ⟨i0, hpi0, _, hid0⟩
    have hi0 : i0 = i := getD_id_inj (pySorted runLe runs) htopo.nodup i0 i
      (by have := pidxOf_lt (pySorted runLe runs) j i0 hpi0; omega) hi hid0
    rw [hdoj, expDotted_child now gen (pySorted runLe runs) j i
      (fun a b => pidxOf_lt (pySorted runLe runs) a b) (hi0 ▸ hpi0), hpart, hdoi]

/-- Witness for C4 on the two-record trace. -/
theorem C4_witness :
    (TopoList (pySorted runLe goodRuns) ∧ (∀ k, k < goodRuns.length → genW k ≠ "") ∧
      ∀ r ∈ goodRuns, ∀ s, r.start_time = some s →
        (fromisoModel (zToOffset s)).isSome = true) ∧
    (∃ st' heap' os, transform_runs nowW genW (TState.init "proj" true) goodHeap goodRuns =
        Except.ok (st', heap', os) ∧
      os.length = goodRuns.length ∧
      ∀ j, j < (pySorted runLe goodRuns).length →
        ∃ dt, parseStartTime nowW ((pySorted runLe goodRuns).getD j dummyRun).start_time =
            Except.ok dt ∧
          (((pySorted runLe goodRuns).getD j dummyRun).parent_run_id = none →
            (os.getD j dummyTRun).dotted_order =
              strftimeCompact dt ++ "Z" ++ stripHyphens ((os.getD j dummyTRun).id)) ∧
          ∀ i, i < (pySorted runLe goodRuns).length →
            ((pySorted runLe goodRuns).getD j dummyRun).parent_run_id =
              some (((pySorted runLe goodRuns).getD i dummyRun).id) →
            (os.getD j dummyTRun).dotted_order = (os.getD i dummyTRun).dotted_order ++ "." ++
              (strftimeCompact dt ++ "Z" ++ stripHyphens ((os.getD j dummyTRun).id))) :=
  ⟨⟨topoList_mk _ (by decide) (by decide) (by decide), by decide, by decide⟩,
    C4_dotted_order_construction nowW genW (TState.init "proj" true) goodHeap goodRuns
      (topoList_mk _ (by decide) (by decide) (by decide)) (by decide) (by decide)⟩

/-! ## Claim C5: unique root and the shared trace id -/

/-- C5: on a valid single-root input, exactly one output record has
parent_run_id absent (the one at the root's sorted position), and its
new id is the trace_id stamped on every output record. -/
theorem C5_unique_root_trace_id (now : DateTime) (gen : Nat → String) (st : TState)
    (heap : Heap) (runs : List Run)
    (htopo : TopoList (pySorted runLe runs))
    (hgen : ∀ k, k < runs.length → gen k ≠ "")
    (hts : ∀ r ∈ runs, ∀ s, r.start_time = some s →
      (fromisoModel (zToOffset s)).isSome = true)
    (rootIdx : Nat) (hroot : rootIdx < (pySorted runLe runs).length)
    (hrootp : ((pySorted runLe runs).getD rootIdx dummyRun).parent_run_id = none)
    (huniq : ∀ k, k < (pySorted runLe runs).length →
      ((pySorted runLe runs).getD k dummyRun).parent_run_id = none → k = rootIdx) :
    ∃ st' heap' os, transform_runs now gen st heap runs = Except.ok (st', heap', os) ∧
      os.length = runs.length ∧ rootIdx < os.length ∧
      (os.getD rootIdx dummyTRun).parent_run_id = none ∧
      (∀ k, k < os.length → (os.getD k dummyTRun).parent_run_id = none → k = rootIdx) ∧
      ∀ k, k < os.length →
        (os.getD k dummyTRun).trace_id = some ((os.getD rootIdx dummyTRun).id) := by
  rcases transform_runs_spec now gen st heap runs htopo hgen hts with
    ⟨st', heap', os, hok, hlen, _, hout⟩
  have hlenrs : (pySorted runLe runs).length = runs.length := pySorted_length runLe runs
  have htid : (firstPass gen 0 st (pySorted runLe runs)).new_trace_id =
      some (gen rootIdx) := by
    have := firstPass_trace_unique gen (pySorted runLe runs) 0 st rootIdx hroot hrootp huniq
    simpa using this
  have hri : rootIdx < os.length := by omega
  have hosr := hout rootIdx (by omega)
  unfold OutSpec at hosr
  obtain ⟨hidr, _, hparr, _⟩ := hosr
  have hpidxr : pidxOf (pySorted runLe runs) rootIdx = none := by
    unfold pidxOf
    rw [hrootp]
  refine ⟨st', heap', os, hok, hlen, hri, ?_, ?_, ?_⟩
  · rw [hparr, hpidxr]
    rfl
  · intro k hk hpark
    have hosk := hout k (by omega)
    unfold OutSpec at hosk
    obtain ⟨_, _, hparrk, _⟩ := hosk
    rw [hparrk] at hpark
    have hknone : pidxOf (pySorted runLe runs) k = none := by
      cases hpk : pidxOf (pySorted runLe runs) k with
      | none => rfl
      | some i => rw [hpk] at hpark; cases hpark
    have hparnone : ((pySorted runLe runs).getD k dummyRun).parent_run_id = none :=
      (pidxOf_none_iff (pySorted runLe runs) htopo k (by omega)).mp hknone
    exact huniq k (by omega) hparnone
  · intro k hk
    have hosk := hout k (by omega)
    unfold OutSpec at hosk
    obtain ⟨_, htidk, _⟩ := hosk
    rw [htidk, htid, hidr]

/-- Witness for C5 on the two-record trace (root at sorted position 0). -/
theorem C5_witness :
    (TopoList (pySorted runLe goodRuns) ∧ (∀ k, k < goodRuns.length → genW k ≠ "") ∧
      (∀ r ∈ goodRuns, ∀ s, r.start_time = some s →
        (fromisoModel (zToOffset s)).isSome = true) ∧
      0 < (pySorted runLe goodRuns).length ∧
      ((pySorted runLe goodRuns).getD 0 dummyRun).parent_run_id = none ∧
      ∀ k, k < (pySorted runLe goodRuns).length →
        ((pySorted runLe goodRuns).getD k dummyRun).parent_run_id = none → k = 0) ∧
    (∃ st' heap' os, transform_runs nowW genW (TState.init "proj" true) goodHeap goodRuns =
        Except.ok (st', heap', os) ∧
      os.length = goodRuns.length ∧ 0 < os.length ∧
      (os.getD 0 dummyTRun).parent_run_id = none ∧
      (∀ k, k < os.length → (os.getD k dummyTRun).parent_run_id = none → k = 0) ∧
      ∀ k, k < os.length → (os.getD k dummyTRun).trace_id = some ((os.getD 0 dummyTRun).id)) :=
  ⟨⟨topoList_mk _ (by decide) (by decide) (by decide), by decide, by decide, by decide,
      by decide, by decide⟩,
    C5_unique_root_trace_id nowW genW (TState.init "proj" true) goodHeap goodRuns
      (topoList_mk _ (by decide) (by decide) (by decide)) (by decide) (by decide) 0
      (by decide) (by decide) (by decide)⟩

/-! ## Claim C9: per-call scoping of the two maps and the trace id -/

/-- C9: a fresh transformer starts with empty id and dotted-order maps and
an unset trace id, and the retained per-instance maps carry no
observable state across independent invocations: on a valid
single-root input, transforming from any prior transformer state (same
project label and timestamp flag) produces exactly the same outputs
and the same final heap as transforming from the freshly initialized
state, because every lookup of this call is served by entries written
by this call. -/
theorem C9_maps_scoped_per_call (now : DateTime) (gen : Nat → String) (st : TState)
    (heap : Heap) (runs : List Run) (proj : String) (flag : Bool)
    (htopo : TopoList (pySorted runLe runs))
    (hgen : ∀ k, k < runs.length → gen k ≠ "")
    (hts : ∀ r ∈ runs, ∀ s, r.start_time = some s →
      (fromisoModel (zToOffset s)).isSome = true)
    (rootIdx : Nat) (hroot : rootIdx < (pySorted runLe runs).length)
    (hrootp : ((pySorted runLe runs).getD rootIdx dummyRun).parent_run_id = none)
    (huniq : ∀ k, k < (pySorted runLe runs).length →
      ((pySorted runLe runs).getD k dummyRun).parent_run_id = none → k = rootIdx)
    (hproj : st.target_project = proj) (hflag : st.preserve_timestamps = flag) :
    (TState.init proj flag).id_mapping = [] ∧
    (TState.init proj flag).dotted_order_mapping = [] ∧
    (TState.init proj flag).new_trace_id = none ∧
    outsOf (transform_runs now gen st heap runs) =
      outsOf (transform_runs now gen (TState.init proj flag) heap runs) ∧
    heapOf (transform_runs now gen st heap runs) =
      heapOf (transform_runs now gen (TState.init proj flag) heap runs) := by
  rcases transform_runs_spec now gen st heap runs htopo hgen hts with
    ⟨stA, heapA, osA, hokA, hlenA, _, houtA⟩
  rcases transform_runs_spec now gen (TState.init proj flag) heap runs htopo hgen hts with
    ⟨stB, heapB, osB, hokB, hlenB, _, houtB⟩
  have htidA : (firstPass gen 0 st (pySorted runLe runs)).new_trace_id =
      some (gen rootIdx) := by
    have := firstPass_trace_unique gen (pySorted runLe runs) 0 st rootIdx hroot hrootp huniq
    simpa using this
  have htidB : (firstPass gen 0 (TState.init proj flag) (pySorted runLe runs)).new_trace_id =
      some (gen rootIdx) := by
    have := firstPass_trace_unique gen (pySorted runLe runs) 0 (TState.init proj flag)
      rootIdx hroot hrootp huniq
    simpa using this
  have hsA : transform_runs now gen st heap runs = Except.ok (stA, heapA, osA) := hokA
  have hsB : transform_runs now gen (TState.init proj flag) heap runs =
      Except.ok (stB, heapB, osB) := hokB
  simp only [transform_runs] at hsA hsB
  rcases secondPass_extra_parallel now (pySorted runLe runs) _ _ _ _ _ _ _ _ _ _ hsA hsB
    rfl with ⟨hheq, hmapx⟩
  have hoseq : osA = osB := by
    apply List.ext_getElem (by omega)
    intro k hk1 hk2
    have hA := houtA k (by omega)
    have hB := houtB k (by omega)
    rw [htidA, hproj, hflag] at hA
    rw [htidB] at hB
    rw [List.getD_eq_getElem osA dummyTRun hk1] at hA
    rw [List.getD_eq_getElem osB dummyTRun hk2] at hB
    have hkm1 : k < (osA.map TRun.extra).length := by simpa using hk1
    have hkm2 : k < (osB.map TRun.extra).length := by simpa using hk2
    have hx : osA[k].extra = osB[k].extra := by
      have h1 : (osA.map TRun.extra)[k] = osA[k].extra := List.getElem_map TRun.extra
      have h2 : (osA.map TRun.extra)[k] = (osB.map TRun.extra)[k] :=
        List.getElem_of_eq hmapx hkm1
      have h3 : (osB.map TRun.extra)[k] = osB[k].extra :=
        List.getElem_map TRun.extra
      rw [← h1, h2, h3]
    exact outSpec_ext now gen (pySorted runLe runs) (some (gen rootIdx)) proj flag k
      osA[k] osB[k] hA hB hx
  refine ⟨rfl, rfl, rfl, ?_, ?_⟩
  · rw [hokA, hokB]
    exact hoseq
  · rw [hokA, hokB]
    exact hheq

/-! ## Claim C3: the order-preservation law -/

/-- C3 counterexample: the claim as stated fails. The input c3Runs is a
valid single-root collection (distinct ids, resolvable parents,
canonical dotted orders, already sorted by dotted_order), but its two
sibling records share the same start microsecond, so their relative
order under the OLD dotted_order is decided by the old id portion,
while their relative order under the NEW dotted_order is decided by
the freshly generated id portion. The injected generator plays a draw
uuid4 can produce, giving the first sibling a larger hex than the
second: re-sorting the output by its new dotted_order then swaps the
two siblings, so sorting the output does NOT reproduce the relative
order of the input sorted by its original dotted_order. -/
theorem C3_counterexample :
    (c3Runs.map Run.id).Nodup ∧
    ((c3Runs.getD 0 dummyRun).parent_run_id = none ∧
      (c3Runs.getD 1 dummyRun).parent_run_id = some ((c3Runs.getD 0 dummyRun).id) ∧
      (c3Runs.getD 2 dummyRun).parent_run_id = some ((c3Runs.getD 0 dummyRun).id)) ∧
    pySorted runLe c3Runs = c3Runs ∧
    resultIsError c3Res = false ∧
    (outsOf c3Res).length = 3 ∧
    pySorted trunLe (outsOf c3Res) ≠ outsOf c3Res := by
  decide

/-- C3 amended: the order-preservation law holds under the hypotheses the
counterexample forces, namely that no two records of the collection
share a formatted start timestamp (so no comparison ever reaches an
id portion), together with the spec's own input data model, which
prescribes dotted_order to be canonical, the dotted join of
timestamp-plus-id parts along the ancestor chain (the old-id
renderings are abstracted as an arbitrary function X). Then the
outputs, which are produced in the order of the input sorted by its
original dotted_order, are already sorted by their new dotted_order:
re-sorting the output reproduces exactly the relative order of the
input sorted by dotted_order. -/
theorem C3_order_preserved_amended (now : DateTime) (gen : Nat → String) (st : TState)
    (heap : Heap) (runs : List Run) (X : Nat → String)
    (htopo : TopoList (pySorted runLe runs))
    (hgen : ∀ k, k < runs.length → gen k ≠ "")
    (hts : ∀ r ∈ runs, ∀ s, r.start_time = some s →
      (fromisoModel (zToOffset s)).isSome = true)
    (htsd : ∀ i, i < (pySorted runLe runs).length → ∀ j, j < (pySorted runLe runs).length →
      i ≠ j → tsOf now (pySorted runLe runs) i ≠ tsOf now (pySorted runLe runs) j)
    (hcanon : ∀ j, j < (pySorted runLe runs).length →
      ((pySorted runLe runs).getD j dummyRun).dotted_order =
        some (dotJoin ((chainIdx (pidxOf (pySorted runLe runs)) j).map
          (fun i => tsOf now (pySorted runLe runs) i ++ X i)))) :
    ∃ st' heap' os, transform_runs now gen st heap runs = Except.ok (st', heap', os) ∧
      os.length = runs.length ∧
      pySorted trunLe os = os := by
  rcases transform_runs_spec now gen st heap runs htopo hgen hts with
    ⟨st', heap', os, hok, hlen, _, hout⟩
  refine ⟨st', heap', os, hok, hlen, ?_⟩
  have hlenrs : (pySorted runLe runs).length = runs.length := pySorted_length runLe runs
  have hmemr : ∀ i, i < (pySorted runLe runs).length →
      (pySorted runLe runs).getD i dummyRun ∈ runs := by
    intro i hi
    rw [List.getD_eq_getElem _ dummyRun hi]
    exact (pySorted_mem runLe _ runs).mp (List.getElem_mem hi)
  have hT21 : ∀ i, i < (pySorted runLe runs).length →
      (tsOf now (pySorted runLe runs) i).length = 21 :=
    fun i hi => tsOf_length now _ i (fun s hs => hts _ (hmemr i hi) s hs)
  have hdec : ∀ a b, pidxOf (pySorted runLe runs) a = some b → b < a :=
    fun a b => pidxOf_lt (pySorted runLe runs) a b
  have hbound : ∀ j, j < (pySorted runLe runs).length →
      ∀ x ∈ chainIdx (pidxOf (pySorted runLe runs)) j,
        x < (pySorted runLe runs).length := by
    intro j hj x hx
    have := chainIdx_mem_le (pidxOf (pySorted runLe runs)) hdec j x hx
    omega
  have hD : ∀ j, expDotted now gen (pySorted runLe runs) j =
      dotJoin ((chainIdx (pidxOf (pySorted runLe runs)) j).map
        (fun i => tsOf now (pySorted runLe runs) i ++ ("Z" ++ stripHyphens (gen i)))) := by
    intro j
    unfold expDotted
    congr 1
    apply List.map_congr_left
    intro i _
    rw [partOf, String.append_assoc]
  have hkey : ∀ k l, k < (pySorted runLe runs).length → l < (pySorted runLe runs).length →
      strLt (expDotted now gen (pySorted runLe runs) l)
          (expDotted now gen (pySorted runLe runs) k) =
        strLt (((pySorted runLe runs).getD l dummyRun).dotted_order.getD "")
          (((pySorted runLe runs).getD k dummyRun).dotted_order.getD "") := by
    intro k l hk hl
    rw [hcanon k hk, hcanon l hl, hD k, hD l]
    simp only [Option.getD_some]
    exact (dotJoin_lt_congr (tsOf now (pySorted runLe runs)) X
      (fun i => "Z" ++ stripHyphens (gen i)) (pySorted runLe runs).length hT21
      (fun i j hi hj => htsd i hi j hj)
      (chainIdx (pidxOf (pySorted runLe runs)) l) (chainIdx (pidxOf (pySorted runLe runs)) k)
      (hbound l hl) (hbound k hk)).symm
  have hpw : List.Pairwise (fun a b => runLe a b = true) (pySorted runLe runs) :=
    pySorted_pairwise runLe runLe_total runLe_trans runs
  have hpw' : List.Pairwise (fun a b => trunLe a b = true) os := by
    rw [List.pairwise_iff_get] at hpw ⊢
    intro a b hab
    have hfa : (a : Nat) < (pySorted runLe runs).length := by
      have := a.isLt
      omega
    have hfb : (b : Nat) < (pySorted runLe runs).length := by
      have := b.isLt
      omega
    have hA := hout (a : Nat) a.isLt
    have hB := hout (b : Nat) b.isLt
    unfold OutSpec at hA hB
    obtain ⟨_, _, _, hdA, _⟩ := hA
    obtain ⟨_, _, _, hdB, _⟩ := hB
    have hgetA : os.get a = os.getD (a : Nat) dummyTRun := by
      rw [List.get_eq_getElem, List.getD_eq_getElem os dummyTRun a.isLt]
    have hgetB : os.get b = os.getD (b : Nat) dummyTRun := by
      rw [List.get_eq_getElem, List.getD_eq_getElem os dummyTRun b.isLt]
    have hin := hpw ⟨(a : Nat), hfa⟩ ⟨(b : Nat), hfb⟩ (by
      rw [Fin.mk_lt_mk]
      exact hab)
    have hgetA' : (pySorted runLe runs).get ⟨(a : Nat), hfa⟩ =
        (pySorted runLe runs).getD (a : Nat) dummyRun := by
      rw [List.get_eq_getElem, List.getD_eq_getElem _ dummyRun hfa]
    have hgetB' : (pySorted runLe runs).get ⟨(b : Nat), hfb⟩ =
        (pySorted runLe runs).getD (b : Nat) dummyRun := by
      rw [List.get_eq_getElem, List.getD_eq_getElem _ dummyRun hfb]
    rw [hgetA', hgetB'] at hin
    unfold runLe strLe at hin
    rw [Bool.not_eq_true'] at hin
    show trunLe (os.get a) (os.get b) = true
    rw [hgetA, hgetB]
    unfold trunLe strLe
    rw [Bool.not_eq_true']
    rw [hdA, hdB, hkey (a : Nat) (b : Nat) hfa hfb]
    exact hin
  exact pySorted_eq_self trunLe os hpw'

/-- Witness for the amended C3 on the two-record trace goodRuns, whose
records carry distinct start timestamps and canonical dotted orders
with old-id renderings goodX. -/
theorem C3_witness :
    (TopoList (pySorted runLe goodRuns) ∧ (∀ k, k < goodRuns.length → genW k ≠ "") ∧
      (∀ r ∈ goodRuns, ∀ s, r.start_time = some s →
        (fromisoModel (zToOffset s)).isSome = true) ∧
      (∀ i, i < (pySorted runLe goodRuns).length → ∀ j, j < (pySorted runLe goodRuns).length →
        i ≠ j → tsOf nowW (pySorted runLe goodRuns) i ≠ tsOf nowW (pySorted runLe goodRuns) j) ∧
      ∀ j, j < (pySorted runLe goodRuns).length →
        ((pySorted runLe goodRuns).getD j dummyRun).dotted_order =
          some (dotJoin ((chainIdx (pidxOf (pySorted runLe goodRuns)) j).map
            (fun i => tsOf nowW (pySorted runLe goodRuns) i ++ goodX i)))) ∧
    (∃ st' heap' os, transform_runs nowW genW (TState.init "proj" true) goodHeap goodRuns =
        Except.ok (st', heap', os) ∧
      os.length = goodRuns.length ∧
      pySorted trunLe os = os) :=
  ⟨⟨topoList_mk _ (by decide) (by decide) (by decide), by decide, by decide, by decide,
      by decide⟩,
    C3_order_preserved_amended nowW genW (TState.init "proj" true) goodHeap goodRuns goodX
      (topoList_mk _ (by decide) (by decide) (by decide)) (by decide) (by decide) (by decide)
      (by decide)⟩

/-- Witness for C9: transforming the two-record trace from a dirty
transformer state (stale maps and trace id from an unrelated earlier
trace) yields the same outputs and heap as from the fresh state. -/
theorem C9_witness :
    (TopoList (pySorted runLe goodRuns) ∧ (∀ k, k < goodRuns.length → genW k ≠ "") ∧
      (∀ r ∈ goodRuns, ∀ s, r.start_time = some s →
        (fromisoModel (zToOffset s)).isSome = true) ∧
      0 < (pySorted runLe goodRuns).length ∧
      ((pySorted runLe goodRuns).getD 0 dummyRun).parent_run_id = none ∧
      (∀ k, k < (pySorted runLe goodRuns).length →
        ((pySorted runLe goodRuns).getD k dummyRun).parent_run_id = none → k = 0)) ∧
    ((TState.init "proj" true).id_mapping = [] ∧
      (TState.init "proj" true).dotted_order_mapping = [] ∧
      (TState.init "proj" true).new_trace_id = none ∧
      outsOf (transform_runs nowW genW
        { TState.init "proj" true with
          id_mapping := [("stale-old-id", "stale-new-id")]
          dotted_order_mapping := [("stale-old-id", "staledotted")]
          new_trace_id := some "stale-trace" } goodHeap goodRuns) =
        outsOf (transform_runs nowW genW (TState.init "proj" true) goodHeap goodRuns) ∧
      heapOf (transform_runs nowW genW
        { TState.init "proj" true with
          id_mapping := [("stale-old-id", "stale-new-id")]
          dotted_order_mapping := [("stale-old-id", "staledotted")]
          new_trace_id := some "stale-trace" } goodHeap goodRuns) =
        heapOf (transform_runs nowW genW (TState.init "proj" true) goodHeap goodRuns)) :=
  ⟨⟨topoList_mk _ (by decide) (by decide) (by decide), by decide, by decide, by decide,
      by decide, by decide⟩,
    C9_maps_scoped_per_call nowW genW
      { TState.init "proj" true with
        id_mapping := [("stale-old-id", "stale-new-id")]
        dotted_order_mapping := [("stale-old-id", "staledotted")]
        new_trace_id := some "stale-trace" } goodHeap goodRuns "proj" true
      (topoList_mk _ (by decide) (by decide) (by decide)) (by decide) (by decide) 0
      (by decide) (by decide) (by decide) (by decide) (by decide)⟩

end CopyPublicTrace
